import Mathlib

/-!
# Verification of the `Matrix` class (`src/matrix.hpp`, `src/matrix.cpp`)

A shallow embedding of the dense row-pointer matrix class and theorems about
it.

Modelling conventions.

* The element type `float` is kept abstract: the operations of the class are
  written over any type `α` carrying `0`, `+`, `-` and `*`, and no algebraic
  law is assumed of them.  Concrete instances are evaluated over `Int`, on
  small integers, which `float` represents exactly.
* `unsigned` values are natural numbers.  The only place where a wider value is
  narrowed to `unsigned` is the literal-list constructor (`list.size()`), where
  the reduction modulo `2 ^ 32` is written out.  Loop counters never wrap: a
  counter runs strictly below a bound that is itself an `unsigned`.
* The owned buffer `float** elements` is `Option (List (List α))`: `none` is the
  null pointer, `some e` an array of row arrays.  An element access outside the
  arrays, or through the null pointer, is undefined behaviour in C++; it is made
  observable here as the fault `Fault.undefinedBehaviour`.
* A C++ exception is an `Except.error` carrying the kind of the exception.
  Besides the two kinds that the class throws itself, `allocate` can throw
  `std::bad_array_new_length`: see `newRow`.
* Exhaustion of the free store (`std::bad_alloc`) is outside the model.
* The arithmetic operations read their operands and build a new matrix; they
  are functions on matrices as values.  For the constructors and assignments
  that copy, move and release a buffer, an object is its three data members
  with the address of its buffer in a free store (`Object`, `Heap`), so that two
  objects can share a buffer or not; `Object.view` is the matrix that an object
  is in a free store.  The literal-list constructor is written in both forms,
  which end alike (`object_ofLiteral_outcome`).
-/

namespace Transformer

/-- Ways in which an operation of the class ends without a result. -/
inductive Fault where
  /-- Thrown `std::invalid_argument`: the spec's `DimensionMismatch`. -/
  | invalidArgument
  /-- Thrown `std::out_of_range`: the spec's `IndexOutOfRange`. -/
  | outOfRange
  /-- Thrown `std::bad_array_new_length`, by an array new-expression whose
  braced initializer has more clauses than the array has elements. -/
  | badArrayNewLength
  /-- Undefined behaviour: an element access outside an array or through the
  null pointer. -/
  | undefinedBehaviour
  deriving DecidableEq

/-- The private data of `class Matrix` (`matrix.hpp`, lines 40-42). -/
structure Matrix (α : Type) where
  rows : Nat
  columns : Nat
  elements : Option (List (List α))
  deriving DecidableEq

/-- Width in bits of `unsigned`. -/
def unsignedBits : Nat := 32

/-- Conversion of a `std::size_t` to `unsigned`. -/
def toUnsigned (n : Nat) : Nat := n % 2 ^ unsignedBits

section Loops

variable {σ : Type}

/-- Runs `body i`, `body (i + 1)`, ... for `count` consecutive counter values,
threading the state and stopping at the first fault. -/
def loopFrom (body : Nat → σ → Except Fault σ) : Nat → Nat → σ → Except Fault σ
  | 0, _, s => Except.ok s
  | count + 1, i, s =>
    match body i s with
    | Except.error f => Except.error f
    | Except.ok s' => loopFrom body count (i + 1) s'

/-- The loop `for (unsigned i = 0; i < n; ++i) body`. -/
def forLoop (n : Nat) (body : Nat → σ → Except Fault σ) (s : σ) : Except Fault σ :=
  loopFrom body n 0 s

end Loops

section Access

variable {α : Type}

/-- Read of `elements[i][j]`. -/
def readElem (elements : Option (List (List α))) (i j : Nat) : Except Fault α :=
  match elements with
  | none => Except.error Fault.undefinedBehaviour
  | some e =>
    match e[i]? with
    | none => Except.error Fault.undefinedBehaviour
    | some row =>
      match row[j]? with
      | none => Except.error Fault.undefinedBehaviour
      | some v => Except.ok v

/-- The assignment `elements[i][j] = v`; the result is the buffer afterwards. -/
def writeElem (elements : Option (List (List α))) (i j : Nat) (v : α) :
    Except Fault (Option (List (List α))) :=
  match elements with
  | none => Except.error Fault.undefinedBehaviour
  | some e =>
    match e[i]? with
    | none => Except.error Fault.undefinedBehaviour
    | some row =>
      if j < row.length then Except.ok (some (e.set i (row.set j v)))
      else Except.error Fault.undefinedBehaviour

/-- The statement `result.elements[i][j] = v` on a matrix object. -/
def Matrix.store (m : Matrix α) (i j : Nat) (v : α) : Except Fault (Matrix α) :=
  match writeElem m.elements i j v with
  | Except.error f => Except.error f
  | Except.ok el => Except.ok { m with elements := el }

end Access

section Construction

variable {α : Type} [Zero α]

/-- The new-expression `new float[columns]{0.0f}` (`matrix.cpp`, line 323).
Its initializer is a braced list of one clause.  By the C++ standard
([expr.new]) the array bound of a new-expression is erroneous when a braced
initializer provides more elements than the array has, and a new-expression
whose erroneous bound is not a constant obtains no storage and throws
`std::bad_array_new_length`: this is the case `columns = 0`.  Otherwise the
first element is initialized to `0.0f` and the remaining ones are
value-initialized, to zero as well. -/
def newRow (columns : Nat) : Except Fault (List α) :=
  if columns = 0 then Except.error Fault.badArrayNewLength
  else Except.ok (List.replicate columns 0)

/-- `Matrix::allocate` (`matrix.cpp`, lines 316-325).  The array of row
pointers `new float*[rows]` is filled at the indices `0, 1, ...` in order and
is not read before the loop ends, so it is built here by appending each new
row. -/
def allocate (rows columns : Nat) : Except Fault (Matrix α) :=
  match forLoop rows
      (fun _ (e : List (List α)) =>
        match newRow columns with
        | Except.error f => Except.error f
        | Except.ok row => Except.ok (e ++ [row])) [] with
  | Except.error f => Except.error f
  | Except.ok e => Except.ok { rows := rows, columns := columns, elements := some e }

/-- `Matrix::Matrix()` (`matrix.cpp`, lines 7-12). -/
def Matrix.empty : Matrix α := { rows := 0, columns := 0, elements := none }

/-- `Matrix::Matrix(unsigned rows, unsigned columns)` (`matrix.cpp`, lines 14-17). -/
def Matrix.sized (rows columns : Nat) : Except Fault (Matrix α) :=
  allocate rows columns

/-- Body of the loop over `i` in the literal-list constructor (`matrix.cpp`,
lines 26-42), for a matrix `m` under construction. -/
def literalRow (list : List (List α)) (columns : Nat) (i : Nat) (m : Matrix α) :
    Except Fault (Matrix α) :=
  match list[i]? with
  | none => Except.error Fault.undefinedBehaviour
  | some src =>
    if src.length ≠ columns then Except.error Fault.invalidArgument
    else
      forLoop m.columns
        (fun j m =>
          match src[j]? with
          | none => Except.error Fault.undefinedBehaviour
          | some v => m.store i j v) m

/-- `Matrix::Matrix(std::initializer_list<std::initializer_list<float>>)`
(`matrix.cpp`, lines 19-43).  `list.begin()->size()` on an empty list reads
past the end of the list. -/
def Matrix.ofLiteral (list : List (List α)) : Except Fault (Matrix α) :=
  match list with
  | [] => Except.error Fault.undefinedBehaviour
  | first :: _ =>
    let rows := toUnsigned list.length
    let columns := toUnsigned first.length
    match allocate rows columns with
    | Except.error f => Except.error f
    | Except.ok m => forLoop m.rows (literalRow list columns) m

end Construction

section Queries

variable {α : Type}

/-- `Matrix::rowSize` (`matrix.cpp`, lines 109-112). -/
def Matrix.rowSize (m : Matrix α) : Nat := m.rows

/-- `Matrix::columnSize` (`matrix.cpp`, lines 114-117). -/
def Matrix.columnSize (m : Matrix α) : Nat := m.columns

/-- `float& Matrix::at(unsigned, unsigned)` (`matrix.cpp`, lines 134-142), the
returned reference being read. -/
def Matrix.atMut (m : Matrix α) (row column : Nat) : Except Fault α :=
  if row ≥ m.rows ∨ column ≥ m.columns then Except.error Fault.outOfRange
  else readElem m.elements row column

/-- `float& Matrix::at(unsigned, unsigned)` (`matrix.cpp`, lines 134-142), the
returned reference being assigned `v`: `m.at(row, column) = v`. -/
def Matrix.atAssign (m : Matrix α) (row column : Nat) (v : α) : Except Fault (Matrix α) :=
  if row ≥ m.rows ∨ column ≥ m.columns then Except.error Fault.outOfRange
  else m.store row column v

/-- `const float& Matrix::at(unsigned, unsigned) const` (`matrix.cpp`,
lines 144-152). -/
def Matrix.atConst (m : Matrix α) (row column : Nat) : Except Fault α :=
  if row ≥ m.rows ∨ column ≥ m.columns then Except.error Fault.outOfRange
  else readElem m.elements row column

end Queries

section Arithmetic

variable {α : Type} [Zero α]

/-- Common text of the three matrix/matrix operators `operator*`, `operator+`
and `operator-` (`matrix.cpp`, lines 154-171, 187-204, 220-237), which differ
only in the operation `op` applied to the two elements read. -/
def elementwise (op : α → α → α) (a b : Matrix α) : Except Fault (Matrix α) :=
  if a.rows ≠ b.rows ∧ a.columns ≠ b.rows then Except.error Fault.invalidArgument
  else
    match allocate a.rows a.columns with
    | Except.error f => Except.error f
    | Except.ok result =>
      forLoop a.rows
        (fun i result =>
          forLoop a.columns
            (fun j result =>
              match readElem a.elements i j with
              | Except.error f => Except.error f
              | Except.ok x =>
                match readElem b.elements i j with
                | Except.error f => Except.error f
                | Except.ok y => result.store i j (op x y)) result) result

/-- `Matrix::operator*(const Matrix&)` (`matrix.cpp`, lines 154-171). -/
def Matrix.mul [Mul α] (a b : Matrix α) : Except Fault (Matrix α) :=
  elementwise (fun x y => x * y) a b

/-- `Matrix::operator+(const Matrix&)` (`matrix.cpp`, lines 187-204). -/
def Matrix.add [Add α] (a b : Matrix α) : Except Fault (Matrix α) :=
  elementwise (fun x y => x + y) a b

/-- `Matrix::operator-(const Matrix&)` (`matrix.cpp`, lines 220-237). -/
def Matrix.sub [Sub α] (a b : Matrix α) : Except Fault (Matrix α) :=
  elementwise (fun x y => x - y) a b

/-- The statement `result.elements[i][j] += this->elements[i][k] *
matrix.elements[k][j]` (`matrix.cpp`, line 279). -/
def dotStep [Add α] [Mul α] (a b : Matrix α) (i j k : Nat) (result : Matrix α) :
    Except Fault (Matrix α) :=
  match readElem result.elements i j with
  | Except.error f => Except.error f
  | Except.ok acc =>
    match readElem a.elements i k with
    | Except.error f => Except.error f
    | Except.ok x =>
      match readElem b.elements k j with
      | Except.error f => Except.error f
      | Except.ok y => result.store i j (acc + x * y)

/-- Body of the loop over `j` in `Matrix::dot` (`matrix.cpp`, lines 276-280):
the element is set to `0.0f` and the loop over `k`, which runs below
`matrix.columns`, accumulates into it. -/
def dotCell [Add α] [Mul α] (a b : Matrix α) (i j : Nat) (result : Matrix α) :
    Except Fault (Matrix α) :=
  match result.store i j 0 with
  | Except.error f => Except.error f
  | Except.ok result => forLoop b.columns (dotStep a b i j) result

/-- `Matrix::dot` (`matrix.cpp`, lines 253-285). -/
def Matrix.dot [Add α] [Mul α] (a b : Matrix α) : Except Fault (Matrix α) :=
  if a.columns ≠ b.rows then Except.error Fault.invalidArgument
  else
    match allocate a.rows b.columns with
    | Except.error f => Except.error f
    | Except.ok result =>
      forLoop result.rows
        (fun i result => forLoop result.columns (dotCell a b i) result) result

/-- `Matrix::transpose` (`matrix.cpp`, lines 287-299). -/
def Matrix.transpose (a : Matrix α) : Except Fault (Matrix α) :=
  match allocate a.columns a.rows with
  | Except.error f => Except.error f
  | Except.ok result =>
    forLoop result.rows
      (fun i result =>
        forLoop result.columns
          (fun j result =>
            match readElem a.elements j i with
            | Except.error f => Except.error f
            | Except.ok v => result.store i j v) result) result

end Arithmetic

section Invariant

variable {α : Type}

/-- The class invariant of the data model.  An unallocated matrix has
dimensions `(0, 0)`.  An allocated one has exactly `rows` rows of exactly
`columns` elements each; and, every row array being obtained from
`new float[columns]{0.0f}` in `allocate`, which yields no array of length
zero, a matrix that has a row has a column. -/
def Matrix.WellFormed (m : Matrix α) : Prop :=
  match m.elements with
  | none => m.rows = 0 ∧ m.columns = 0
  | some e =>
    e.length = m.rows ∧ (∀ row ∈ e, row.length = m.columns) ∧
      (m.rows = 0 ∨ 0 < m.columns)

instance (m : Matrix α) : Decidable m.WellFormed := by
  unfold Matrix.WellFormed
  cases m.elements <;> infer_instance

end Invariant

section Auxiliary

variable {α : Type}

/-- An allocated matrix with `r` rows of `c` elements each. -/
def Matrix.Sized (m : Matrix α) (r c : Nat) : Prop :=
  m.rows = r ∧ m.columns = c ∧
    ∃ e, m.elements = some e ∧ e.length = r ∧ ∀ row ∈ e, row.length = c

/-- Element `(i, j)` of a matrix; `0` where the matrix has no such element. -/
def Matrix.entry [Zero α] (m : Matrix α) (i j : Nat) : α :=
  match readElem m.elements i j with
  | Except.ok v => v
  | Except.error _ => 0

/-- The sum of products in the words of the specification of `dot`: starting
from `0`, the products `a[i][k] * b[k][j]` are added for `k = 0, 1, ..., n - 1`. -/
def productSum [Zero α] [Add α] [Mul α] (a b : Matrix α) (i j : Nat) : Nat → α
  | 0 => 0
  | n + 1 => productSum a b i j n + a.entry i n * b.entry n j

/-- The matrix `R` has the dimensions of `a` and holds, at every position of
`a`, the value of `op` on the elements of `a` and `b` at that position. -/
def IsElementwise (op : α → α → α) (a b R : Matrix α) : Prop :=
  R.rowSize = a.rowSize ∧ R.columnSize = a.columnSize ∧
    ∀ i j, i < a.rows → j < a.columns →
      ∃ x y, readElem a.elements i j = Except.ok x ∧
        readElem b.elements i j = Except.ok y ∧
        readElem R.elements i j = Except.ok (op x y)

/-- A 2 by 3 matrix of small integers. -/
def sampleLeft : Matrix Int :=
  { rows := 2, columns := 3, elements := some [[1, 2, 3], [4, 5, 6]] }

/-- A 3 by 2 matrix of small integers. -/
def sampleRight : Matrix Int :=
  { rows := 3, columns := 2, elements := some [[7, 8], [9, 10], [11, 12]] }

/-- A 3 by 3 matrix of small integers. -/
def sampleSquare : Matrix Int :=
  { rows := 3, columns := 3, elements := some [[1, 0, 0], [0, 1, 0], [0, 0, 1]] }

/-- The matrix with no rows and one column, the result of `Matrix(0, 1)`. -/
def sampleNoRows : Matrix Int :=
  { rows := 0, columns := 1, elements := some [] }

end Auxiliary

section ScalarArithmetic

variable {α : Type} [Zero α]

/-- Common text of the three matrix/scalar operators `operator*`, `operator+`
and `operator-` taking a `float` (`matrix.cpp`, lines 173-185, 206-218,
239-251), which differ only in the operation `op` applied to the element
read. -/
def scalarwise (op : α → α) (a : Matrix α) : Except Fault (Matrix α) :=
  match allocate a.rows a.columns with
  | Except.error f => Except.error f
  | Except.ok result =>
    forLoop a.rows
      (fun i result =>
        forLoop a.columns
          (fun j result =>
            match readElem a.elements i j with
            | Except.error f => Except.error f
            | Except.ok x => result.store i j (op x)) result) result

/-- `Matrix::operator*(const float)` (`matrix.cpp`, lines 173-185). -/
def Matrix.mulScalar [Mul α] (a : Matrix α) (scalar : α) : Except Fault (Matrix α) :=
  scalarwise (fun x => x * scalar) a

/-- `Matrix::operator+(const float)` (`matrix.cpp`, lines 206-218). -/
def Matrix.addScalar [Add α] (a : Matrix α) (scalar : α) : Except Fault (Matrix α) :=
  scalarwise (fun x => x + scalar) a

/-- `Matrix::operator-(const float)` (`matrix.cpp`, lines 239-251). -/
def Matrix.subScalar [Sub α] (a : Matrix α) (scalar : α) : Except Fault (Matrix α) :=
  scalarwise (fun x => x - scalar) a

/-- The matrix `R` has the dimensions of `a` and holds, at every position of
`a`, the value of `op` on the element of `a` at that position. -/
def IsScalarwise (op : α → α) (a R : Matrix α) : Prop :=
  R.rowSize = a.rowSize ∧ R.columnSize = a.columnSize ∧
    ∀ i j, i < a.rows → j < a.columns →
      ∃ x, readElem a.elements i j = Except.ok x ∧
        readElem R.elements i j = Except.ok (op x)

end ScalarArithmetic

section FreeStore

variable {α : Type}

/-- The free store, at the granularity of a buffer: a row-pointer array
together with the row arrays that it points to, which the class allocates and
releases together and never shares one by one.  The address of a buffer is its
index in the list; `none` marks a released buffer. -/
abbrev Heap (α : Type) := List (Option (List (List α)))

/-- A matrix object: the three data members of `class Matrix` (`matrix.hpp`,
lines 40-42), `elements` being the null pointer or the address of a buffer. -/
structure Object where
  rows : Nat
  columns : Nat
  elements : Option Nat
  deriving DecidableEq

/-- The buffer that a pointer designates: none for the null pointer, for an
address that was never allocated and for a released buffer. -/
def deref (h : Heap α) (p : Option Nat) : Option (List (List α)) :=
  match p with
  | none => none
  | some q =>
    match h[q]? with
    | some (some e) => some e
    | _ => none

/-- The matrix that an object is in a given free store. -/
def Object.view (o : Object) (h : Heap α) : Matrix α :=
  { rows := o.rows, columns := o.columns, elements := deref h o.elements }

/-- The number of live allocations of the free store: for every buffer that is
not released, its row-pointer array and each of its row arrays. -/
def liveAllocations : Heap α → Nat
  | [] => 0
  | none :: h => liveAllocations h
  | some e :: h => 1 + e.length + liveAllocations h

/-- Runs `body i`, `body (i + 1)`, ... like `loopFrom`, for a body that
returns the state it reached together with the fault that ended it, if any. -/
def loopKeepFrom {σ : Type} (body : Nat → σ → σ × Option Fault) :
    Nat → Nat → σ → σ × Option Fault
  | 0, _, s => (s, none)
  | count + 1, i, s =>
    match body i s with
    | (s', some f) => (s', some f)
    | (s', none) => loopKeepFrom body count (i + 1) s'

/-- The loop `for (unsigned i = 0; i < n; ++i) body`, for a body that returns
the state it reached together with the fault that ended it, if any. -/
def forLoopKeep {σ : Type} (n : Nat) (body : Nat → σ → σ × Option Fault) (s : σ) :
    σ × Option Fault :=
  loopKeepFrom body n 0 s

/-- The assignment `elements[i][j] = v` through the pointer `p`. -/
def heapStore (h : Heap α) (p : Option Nat) (i j : Nat) (v : α) : Heap α × Option Fault :=
  match p with
  | none => (h, some Fault.undefinedBehaviour)
  | some q =>
    match writeElem (deref h (some q)) i j v with
    | Except.error f => (h, some f)
    | Except.ok el => (h.set q el, none)

/-- The statement `this->elements[i] = new float[this->columns]{0.0f}` once the
new-expression has returned `row`: the buffer at `p` gets its next row. -/
def pushRow (h : Heap α) (p : Nat) (row : List α) : Heap α :=
  match h[p]? with
  | some (some e) => h.set p (some (e ++ [row]))
  | _ => h

/-- `Matrix::allocate` (`matrix.cpp`, lines 316-325) on the free store.  The
data members are set first; `new float*[rows]` is a new buffer without rows,
at the next address; the loop gives it its rows.  A new-expression that throws
leaves the buffer as it is. -/
def Object.allocate [Zero α] (rows columns : Nat) (h : Heap α) :
    Heap α × Object × Option Fault :=
  match forLoopKeep rows
      (fun _ h' =>
        match (newRow columns : Except Fault (List α)) with
        | Except.error f => (h', some f)
        | Except.ok row => (pushRow h' h.length row, none)) (h ++ [some []]) with
  | (h', fault) => (h', { rows := rows, columns := columns, elements := some h.length }, fault)

/-- `Matrix::free` (`matrix.cpp`, lines 327-338).  With a null pointer and no
row, nothing is deleted.  Otherwise the loop reads `elements[i]` for
`i < rows`: the pointer must designate a live buffer.  The buffer is released
as a whole, which is what the statements `delete[]` do when the row count of
the object is that of the buffer; an object with another row count, which no
operation of the class produces, is not modelled, and faults. -/
def Object.free (o : Object) (h : Heap α) : Heap α × Object × Option Fault :=
  match o.elements with
  | none =>
    if o.rows = 0 then (h, { rows := 0, columns := 0, elements := none }, none)
    else (h, o, some Fault.undefinedBehaviour)
  | some p =>
    match h[p]? with
    | some (some e) =>
      if o.rows = e.length then
        (h.set p none, { rows := 0, columns := 0, elements := none }, none)
      else (h, o, some Fault.undefinedBehaviour)
    | _ => (h, o, some Fault.undefinedBehaviour)

/-- The text common to the copy constructor and to copy-assignment
(`matrix.cpp`, lines 47-54 and 82-89): `this->allocate(other.rows,
other.columns)` and the two loops of `this->elements[i][j] = other[i][j]`. -/
def Object.copyFrom [Zero α] (other : Object) (h : Heap α) :
    Heap α × Object × Option Fault :=
  match Object.allocate other.rows other.columns h with
  | (h1, self, some f) => (h1, self, some f)
  | (h1, self, none) =>
    match forLoopKeep self.rows
        (fun i h' =>
          forLoopKeep self.columns
            (fun j h' =>
              match readElem (deref h' other.elements) i j with
              | Except.error f => (h', some f)
              | Except.ok v => heapStore h' self.elements i j v) h') h1 with
    | (h2, fault) => (h2, self, fault)

/-- `Matrix::Matrix(const Matrix&)` (`matrix.cpp`, lines 45-55). -/
def Object.copyConstruct [Zero α] (other : Object) (h : Heap α) :
    Heap α × Object × Option Fault :=
  Object.copyFrom other h

/-- `Matrix::Matrix(Matrix&&)` (`matrix.cpp`, lines 57-66): the new object and
the state in which `other` is left.  The free store is not touched. -/
def Object.moveConstruct (other : Object) : Object × Object :=
  ({ rows := other.rows, columns := other.columns, elements := other.elements },
   { rows := 0, columns := 0, elements := none })

/-- `Matrix::operator=(const Matrix&)` (`matrix.cpp`, lines 73-92).  `same`
is the outcome of the test `this == &other`. -/
def Object.copyAssign [Zero α] (same : Bool) (self other : Object) (h : Heap α) :
    Heap α × Object × Option Fault :=
  if same then (h, self, none)
  else
    match self.free h with
    | (h1, self1, some f) => (h1, self1, some f)
    | (h1, _, none) => Object.copyFrom other h1

/-- `Matrix::operator=(Matrix&&)` (`matrix.cpp`, lines 94-107), for `other` an
object distinct from `*this`: the states in which `*this` and `other` are
left. -/
def Object.moveAssign (self other : Object) (h : Heap α) :
    Heap α × (Object × Object) × Option Fault :=
  match self.free h with
  | (h1, self1, some f) => (h1, (self1, other), some f)
  | (h1, _, none) =>
    (h1, ({ rows := other.rows, columns := other.columns, elements := other.elements },
          { rows := 0, columns := 0, elements := none }), none)

/-- The statement `o.at(row, column) = v` (`matrix.cpp`, lines 134-142). -/
def Object.atAssign (o : Object) (row column : Nat) (v : α) (h : Heap α) :
    Heap α × Option Fault :=
  if row ≥ o.rows ∨ column ≥ o.columns then (h, some Fault.outOfRange)
  else heapStore h o.elements row column v

/-- `Matrix::Matrix(std::initializer_list<std::initializer_list<float>>)`
(`matrix.cpp`, lines 19-43) on the free store.  The `throw` of line 35 leaves
the constructor with no handler in between, and the destructor of an object
whose constructor did not complete is not run (C++ [except.ctor]): the free
store stays as the constructor left it. -/
def Object.ofLiteral [Zero α] (list : List (List α)) (h : Heap α) :
    Heap α × Object × Option Fault :=
  match list with
  | [] => (h, { rows := 0, columns := 0, elements := none }, some Fault.undefinedBehaviour)
  | first :: _ =>
    let columns := toUnsigned first.length
    match Object.allocate (toUnsigned list.length) columns h with
    | (h1, self, some f) => (h1, self, some f)
    | (h1, self, none) =>
      match forLoopKeep self.rows
          (fun i h' =>
            match list[i]? with
            | none => (h', some Fault.undefinedBehaviour)
            | some src =>
              if src.length ≠ columns then (h', some Fault.invalidArgument)
              else
                forLoopKeep self.columns
                  (fun j h' =>
                    match src[j]? with
                    | none => (h', some Fault.undefinedBehaviour)
                    | some v => heapStore h' self.elements i j v) h') h1 with
      | (h2, fault) => (h2, self, fault)

/-- `Matrix::~Matrix` (`matrix.cpp`, lines 68-71). -/
def Object.destroy (o : Object) (h : Heap α) : Heap α × Object × Option Fault :=
  o.free h

/-- The invariant of an object in a free store: the matrix it is there is
well-formed, and its pointer, when not null, designates a live buffer. -/
def Object.Valid (o : Object) (h : Heap α) : Prop :=
  (o.view h).WellFormed ∧
    (o.elements.isSome = true → (deref h o.elements).isSome = true)

instance (o : Object) (h : Heap α) : Decidable (o.Valid h) := by
  unfold Object.Valid
  infer_instance

end FreeStore
/-- The buffer at the address `p` is live and has `r` rows of `c` elements. -/
def BlockSized {α : Type} (h : Heap α) (p r c : Nat) : Prop :=
  ∃ e, h[p]? = some (some e) ∧ e.length = r ∧ ∀ row ∈ e, row.length = c

/-- The free store `h` has the addresses of `h0` and, except at the address
`p`, the buffers of `h0`. -/
def SameExcept {α : Type} (h0 : Heap α) (p : Nat) (h : Heap α) : Prop :=
  h.length = h0.length ∧ ∀ q, q ≠ p → h[q]? = h0[q]?
/-- The object `c` in the free store `h'` is a copy of the object `a` of the
free store `h` that shares nothing with it: `c` has the dimensions of `a` and,
at every position, the element of `a`; `a` is in `h'` the matrix it was in `h`;
`c` is valid; and an assignment through `c.at(r, k)` with `r < rows` and
`k < columns` succeeds, makes that position of `c` hold the value, changes no
other position of `c`, and leaves `a` the matrix it was. -/
def IsIndependentCopy {α : Type} (a : Object) (h : Heap α) (c : Object) (h' : Heap α) :
    Prop :=
  c.rows = a.rows ∧ c.columns = a.columns ∧
  (∀ i j, i < a.rows → j < a.columns →
    ∃ v, readElem (a.view h).elements i j = Except.ok v ∧
      readElem (c.view h').elements i j = Except.ok v) ∧
  a.view h' = a.view h ∧
  c.Valid h' ∧
  ∀ r k v, r < c.rows → k < c.columns →
    ∃ h'', c.atAssign r k v h' = (h'', none) ∧
      readElem (c.view h'').elements r k = Except.ok v ∧
      (∀ i j, (i ≠ r ∨ j ≠ k) →
        readElem (c.view h'').elements i j = readElem (c.view h').elements i j) ∧
      a.view h'' = a.view h
/-- The allocations of a buffer: none when it is released, otherwise its
row-pointer array and its row arrays. -/
def blockAllocations {α : Type} : Option (List (List α)) → Nat
  | none => 0
  | some e => 1 + e.length

/-- A free store with two buffers: a 2 by 3 one and a 1 by 1 one. -/
def sampleHeap : Heap Int :=
  [some [[1, 2, 3], [4, 5, 6]], some [[7]]]

/-- The object that owns the 2 by 3 buffer of `sampleHeap`. -/
def sampleSource : Object :=
  { rows := 2, columns := 3, elements := some 0 }

/-- The object that owns the 1 by 1 buffer of `sampleHeap`. -/
def sampleTarget : Object :=
  { rows := 1, columns := 1, elements := some 1 }

deriving instance DecidableEq for Except

/-! ## Loops -/

section LoopLemmas
variable {σ : Type}

/-- Invariant rule for `loopFrom`: a loop whose every iteration succeeds and
carries `P` from one counter value to the next succeeds and ends in `P`. -/
theorem loopFrom_invariant (body : Nat → σ → Except Fault σ) (P : Nat → σ → Prop) :
    ∀ (count i : Nat) (s : σ), P i s →
      (∀ k t, i ≤ k → k < i + count → P k t → ∃ t', body k t = Except.ok t' ∧ P (k + 1) t') →
      ∃ s', loopFrom body count i s = Except.ok s' ∧ P (i + count) s' := by
  intro count
  induction count with
  | zero => intro i s h _; exact ⟨s, rfl, h⟩
  | succ n ih =>
    intro i s h hstep
    obtain ⟨t, ht, hP⟩ := hstep i s (Nat.le_refl i) (by omega) h
    obtain ⟨s', hs', hP'⟩ := ih (i + 1) t hP
      (fun k u hk hlt hu => hstep k u (by omega) (by omega) hu)
    refine ⟨s', ?_, ?_⟩
    · simp only [loopFrom, ht]; exact hs'
    · have : i + (n + 1) = i + 1 + n := by omega
      rw [this]; exact hP'

/-- Invariant rule for `forLoop`. -/
theorem forLoop_invariant (n : Nat) (body : Nat → σ → Except Fault σ) (P : Nat → σ → Prop)
    (s : σ) (h0 : P 0 s)
    (hstep : ∀ k t, k < n → P k t → ∃ t', body k t = Except.ok t' ∧ P (k + 1) t') :
    ∃ s', forLoop n body s = Except.ok s' ∧ P n s' := by
  have := loopFrom_invariant body P n 0 s h0
    (fun k t _ hk hP => hstep k t (by omega) hP)
  simpa [forLoop] using this

/-- A fault of `loopFrom` is a fault of one of its iterations. -/
theorem loopFrom_fault (body : Nat → σ → Except Fault σ) (F : Fault → Prop)
    (hbody : ∀ k t f, body k t = Except.error f → F f) :
    ∀ (count i : Nat) (s : σ) (f : Fault),
      loopFrom body count i s = Except.error f → F f := by
  intro count
  induction count with
  | zero => intro i s f h; simp [loopFrom] at h
  | succ n ih =>
    intro i s f h
    simp only [loopFrom] at h
    cases hb : body i s with
    | error g =>
      rw [hb] at h
      simp only [Except.error.injEq] at h
      exact h ▸ hbody i s g hb
    | ok t =>
      rw [hb] at h
      exact ih (i + 1) t f h

/-- A fault of `forLoop` is a fault of one of its iterations. -/
theorem forLoop_fault (n : Nat) (body : Nat → σ → Except Fault σ) (F : Fault → Prop)
    (hbody : ∀ k t f, body k t = Except.error f → F f) (s : σ) (f : Fault)
    (h : forLoop n body s = Except.error f) : F f :=
  loopFrom_fault body F hbody n 0 s f h

/-- A loop whose first iteration faults ends with that fault. -/
theorem forLoop_first_fault (n : Nat) (body : Nat → σ → Except Fault σ) (s : σ)
    (f : Fault) (hn : 0 < n) (h : body 0 s = Except.error f) :
    forLoop n body s = Except.error f := by
  cases n with
  | zero => omega
  | succ k => simp only [forLoop, loopFrom, h]

end LoopLemmas

section GuardedLoop
variable {σ : Type}

/-- A loop whose iterations succeed at the counter values satisfying `Good` and
end with the fault `f` at the others ends with `f` as soon as one counter value
in its range fails `Good`. -/
theorem loopFrom_guarded (body : Nat → σ → Except Fault σ) (P : Nat → σ → Prop)
    (Good : Nat → Prop) (f : Fault) :
    ∀ (count i : Nat) (s : σ), P i s →
      (∀ k t, i ≤ k → k < i + count → P k t → Good k →
        ∃ t', body k t = Except.ok t' ∧ P (k + 1) t') →
      (∀ k t, i ≤ k → k < i + count → P k t → ¬ Good k → body k t = Except.error f) →
      (∃ k, i ≤ k ∧ k < i + count ∧ ¬ Good k) →
      loopFrom body count i s = Except.error f := by
  intro count
  induction count with
  | zero =>
    intro i s _ _ _ hex
    obtain ⟨k, h1, h2, _⟩ := hex
    omega
  | succ n ih =>
    intro i s hP hgood hbad hex
    by_cases hg : Good i
    · obtain ⟨t, ht, hPt⟩ := hgood i s (Nat.le_refl i) (by omega) hP hg
      simp only [loopFrom, ht]
      apply ih (i + 1) t hPt
      · intro k u hk hlt; exact hgood k u (by omega) (by omega)
      · intro k u hk hlt; exact hbad k u (by omega) (by omega)
      · obtain ⟨k, h1, h2, h3⟩ := hex
        have hne : k ≠ i := fun h => h3 (h ▸ hg)
        exact ⟨k, by omega, by omega, h3⟩
    · simp only [loopFrom, hbad i s (Nat.le_refl i) (by omega) hP hg]

/-- The rule `loopFrom_guarded` for `forLoop`. -/
theorem forLoop_guarded (n : Nat) (body : Nat → σ → Except Fault σ) (P : Nat → σ → Prop)
    (Good : Nat → Prop) (f : Fault) (s : σ) (h0 : P 0 s)
    (hgood : ∀ k t, k < n → P k t → Good k → ∃ t', body k t = Except.ok t' ∧ P (k + 1) t')
    (hbad : ∀ k t, k < n → P k t → ¬ Good k → body k t = Except.error f)
    (hex : ∃ k, k < n ∧ ¬ Good k) :
    forLoop n body s = Except.error f := by
  obtain ⟨k, hk, hng⟩ := hex
  exact loopFrom_guarded body P Good f n 0 s h0
    (fun k t _ hlt => hgood k t (by omega))
    (fun k t _ hlt => hbad k t (by omega))
    ⟨k, Nat.zero_le k, by omega, hng⟩

end GuardedLoop

section AccessLemmas
variable {α : Type}

/-- The only fault of an element read is an access outside the buffer. -/
theorem readElem_fault (el : Option (List (List α))) (i j : Nat) (f : Fault)
    (h : readElem el i j = Except.error f) : f = Fault.undefinedBehaviour := by
  unfold readElem at h
  split at h
  · simpa using h.symm
  · split at h
    · simpa using h.symm
    · split at h
      · simpa using h.symm
      · simp at h

/-- The only fault of an element write is an access outside the buffer. -/
theorem writeElem_fault (el : Option (List (List α))) (i j : Nat) (v : α) (f : Fault)
    (h : writeElem el i j v = Except.error f) : f = Fault.undefinedBehaviour := by
  unfold writeElem at h
  split at h
  · simpa using h.symm
  · split at h
    · simpa using h.symm
    · split at h
      · simp at h
      · simpa using h.symm

/-- The only fault of `store` is an access outside the buffer. -/
theorem store_fault (m : Matrix α) (i j : Nat) (v : α) (f : Fault)
    (h : m.store i j v = Except.error f) : f = Fault.undefinedBehaviour := by
  unfold Matrix.store at h
  split at h
  · next g hg =>
    simp only [Except.error.injEq] at h
    exact h ▸ writeElem_fault _ _ _ _ _ hg
  · simp at h

/-- A read inside the buffer returns the stored element. -/
theorem readElem_some (e : List (List α)) (i j : Nat) (hi : i < e.length)
    (hj : j < (e[i]).length) :
    readElem (some e) i j = Except.ok ((e[i])[j]) := by
  simp [readElem, List.getElem?_eq_getElem hi, List.getElem?_eq_getElem hj]

/-- Every position of an allocated `r` by `c` matrix can be read. -/
theorem sized_read {m : Matrix α} {r c i j : Nat} (hm : m.Sized r c) (hi : i < r)
    (hj : j < c) : ∃ v, readElem m.elements i j = Except.ok v := by
  obtain ⟨_, _, e, he, hlen, hrow⟩ := hm
  have hi' : i < e.length := by omega
  have hj' : j < (e[i]).length := by
    rw [hrow _ (List.getElem_mem hi')]; exact hj
  exact ⟨_, by rw [he]; exact readElem_some e i j hi' hj'⟩

/-- A store at a position of an allocated `r` by `c` matrix succeeds, keeps the
shape, makes the position hold the value and changes no other position. -/
theorem sized_store {m : Matrix α} {r c i j : Nat} (v : α) (hm : m.Sized r c)
    (hi : i < r) (hj : j < c) :
    ∃ m', m.store i j v = Except.ok m' ∧ m'.Sized r c ∧
      readElem m'.elements i j = Except.ok v ∧
      ∀ i' j', (i' ≠ i ∨ j' ≠ j) →
        readElem m'.elements i' j' = readElem m.elements i' j' := by
  obtain ⟨hr, hc, e, he, hlen, hrow⟩ := hm
  have hi' : i < e.length := by omega
  have hj' : j < (e[i]).length := by
    rw [hrow _ (List.getElem_mem hi')]; exact hj
  refine ⟨{ m with elements := some (e.set i ((e[i]).set j v)) }, ?_, ?_, ?_, ?_⟩
  · simp [Matrix.store, writeElem, he, List.getElem?_eq_getElem hi', hj']
  · refine ⟨hr, hc, _, rfl, by simpa using hlen, ?_⟩
    intro row hmem
    rcases List.mem_or_eq_of_mem_set hmem with h | h
    · exact hrow row h
    · rw [h, List.length_set]; exact hrow _ (List.getElem_mem hi')
  · simp [readElem, List.getElem?_set_self, hi', hj']
  · intro i' j' hne
    by_cases hii : i' = i
    · subst hii
      have hjj : j' ≠ j := by
        rcases hne with h | h
        · exact absurd rfl h
        · exact h
      simp [readElem, he, hi', List.getElem?_eq_getElem hi', List.getElem?_set_ne (Ne.symm hjj)]
    · simp [readElem, he, List.getElem?_set_ne (Ne.symm hii)]

end AccessLemmas

section AllocateLemmas
variable {α : Type} [Zero α]

/-- Closed form of `allocate`: it throws when a row of zero elements is asked
for, and otherwise yields `rows` rows of `columns` zeros. -/
theorem allocate_eq (r c : Nat) :
    (allocate r c : Except Fault (Matrix α)) =
      if r ≠ 0 ∧ c = 0 then Except.error Fault.badArrayNewLength
      else Except.ok
        { rows := r, columns := c,
          elements := some (List.replicate r (List.replicate c 0)) } := by
  by_cases hc : c = 0
  · subst hc
    cases r with
    | zero => rfl
    | succ n => simp [allocate, forLoop, loopFrom, newRow]
  · have hloop := forLoop_invariant r
      (fun _ (e : List (List α)) =>
        match (newRow c : Except Fault (List α)) with
        | Except.error f => Except.error f
        | Except.ok row => Except.ok (e ++ [row]))
      (fun k e => e = List.replicate k (List.replicate c 0)) [] rfl
      (by
        intro k t _ ht
        refine ⟨t ++ [List.replicate c 0], by simp [newRow, hc], ?_⟩
        show t ++ [List.replicate c 0] = List.replicate (k + 1) (List.replicate c 0)
        rw [ht, List.replicate_succ'])
    obtain ⟨e, he, hrep⟩ := hloop
    simp only [allocate, he, hrep]
    simp [hc]

/-- The only fault of `allocate` is `std::bad_array_new_length`. -/
theorem allocate_fault (r c : Nat) (f : Fault)
    (h : (allocate r c : Except Fault (Matrix α)) = Except.error f) :
    f = Fault.badArrayNewLength := by
  rw [allocate_eq] at h
  split at h
  · simpa using h.symm
  · simp at h

/-- A matrix that `allocate` returns has the shape asked for. -/
theorem allocate_sized (r c : Nat) (m : Matrix α)
    (h : allocate r c = Except.ok m) : m.Sized r c := by
  rw [allocate_eq] at h
  split at h
  · simp at h
  · simp only [Except.ok.injEq] at h
    subst h
    refine ⟨rfl, rfl, _, rfl, by simp, ?_⟩
    intro row hrow
    rw [List.eq_of_mem_replicate hrow]; simp

/-- `allocate` succeeds when no row is asked for or the rows have an element. -/
theorem allocate_ok (r c : Nat) (h : r = 0 ∨ 0 < c) :
    (allocate r c : Except Fault (Matrix α)) = Except.ok
      { rows := r, columns := c,
        elements := some (List.replicate r (List.replicate c 0)) } := by
  rw [allocate_eq, if_neg]
  omega

end AllocateLemmas

section FillLemmas
variable {α : Type}

/-- The loop over `j` of a loop nest: if the body at `j` succeeds on an `r` by
`c` matrix, keeps its shape, makes position `(i, j)` satisfy `G j` and changes
no other position, then the loop makes the whole row `i` satisfy `G` and
changes no other row. -/
theorem fill_row (r c i : Nat) (cellBody : Nat → Matrix α → Except Fault (Matrix α))
    (G : Nat → α → Prop)
    (hcell : ∀ j m, j < c → m.Sized r c →
      ∃ m', cellBody j m = Except.ok m' ∧ m'.Sized r c ∧
        (∃ v, readElem m'.elements i j = Except.ok v ∧ G j v) ∧
        ∀ i' j', (i' ≠ i ∨ j' ≠ j) →
          readElem m'.elements i' j' = readElem m.elements i' j')
    (m : Matrix α) (hm : m.Sized r c) :
    ∃ m', forLoop c cellBody m = Except.ok m' ∧ m'.Sized r c ∧
      (∀ j, j < c → ∃ v, readElem m'.elements i j = Except.ok v ∧ G j v) ∧
      ∀ i' j', i' ≠ i → readElem m'.elements i' j' = readElem m.elements i' j' := by
  have h := forLoop_invariant c cellBody
    (fun k t => t.Sized r c ∧
      (∀ j, j < k → ∃ v, readElem t.elements i j = Except.ok v ∧ G j v) ∧
      ∀ i' j', i' ≠ i → readElem t.elements i' j' = readElem m.elements i' j')
    m ⟨hm, fun j hj => absurd hj (Nat.not_lt_zero j), fun _ _ _ => rfl⟩
    (by
      intro k t hk ⟨ht, hdone, hframe⟩
      obtain ⟨t', hrun, ht', hnew, hkeep⟩ := hcell k t hk ht
      refine ⟨t', hrun, ht', ?_, ?_⟩
      · intro j hj
        by_cases hjk : j = k
        · subst hjk; exact hnew
        · rw [hkeep i j (Or.inr hjk)]
          exact hdone j (by omega)
      · intro i' j' hi'
        rw [hkeep i' j' (Or.inl hi')]
        exact hframe i' j' hi')
  obtain ⟨m', hrun, hs, hdone, hframe⟩ := h
  exact ⟨m', hrun, hs, hdone, hframe⟩

/-- The loop over `i` of a loop nest: if the body at `i` makes row `i` satisfy
`G i` and changes no other row, the loop makes every position satisfy `G`. -/
theorem fill (r c : Nat) (rowBody : Nat → Matrix α → Except Fault (Matrix α))
    (G : Nat → Nat → α → Prop)
    (hrow : ∀ i m, i < r → m.Sized r c →
      ∃ m', rowBody i m = Except.ok m' ∧ m'.Sized r c ∧
        (∀ j, j < c → ∃ v, readElem m'.elements i j = Except.ok v ∧ G i j v) ∧
        ∀ i' j', i' ≠ i → readElem m'.elements i' j' = readElem m.elements i' j')
    (m : Matrix α) (hm : m.Sized r c) :
    ∃ m', forLoop r rowBody m = Except.ok m' ∧ m'.Sized r c ∧
      ∀ i j, i < r → j < c → ∃ v, readElem m'.elements i j = Except.ok v ∧ G i j v := by
  have h := forLoop_invariant r rowBody
    (fun k t => t.Sized r c ∧
      ∀ i j, i < k → j < c → ∃ v, readElem t.elements i j = Except.ok v ∧ G i j v)
    m ⟨hm, fun i _ hi => absurd hi (Nat.not_lt_zero i)⟩
    (by
      intro k t hk ⟨ht, hdone⟩
      obtain ⟨t', hrun, ht', hnew, hkeep⟩ := hrow k t hk ht
      refine ⟨t', hrun, ht', ?_⟩
      intro i j hi hj
      by_cases hik : i = k
      · subst hik; exact hnew j hj
      · rw [hkeep i j hik]
        exact hdone i j (by omega) hj)
  obtain ⟨m', hrun, hs, hdone⟩ := h
  exact ⟨m', hrun, hs, hdone⟩

/-- Every position `(i, j)` with `i < rows` and `j < columns` of a well-formed
matrix is inside its buffer. -/
theorem wellFormed_read {m : Matrix α} {i j : Nat} (hm : m.WellFormed)
    (hi : i < m.rows) (hj : j < m.columns) :
    ∃ e row v, m.elements = some e ∧ e[i]? = some row ∧ row[j]? = some v ∧
      readElem m.elements i j = Except.ok v := by
  unfold Matrix.WellFormed at hm
  cases he : m.elements with
  | none => rw [he] at hm; omega
  | some e =>
    rw [he] at hm
    obtain ⟨hlen, hrow, _⟩ := hm
    have hi' : i < e.length := by omega
    have hj' : j < (e[i]).length := by
      rw [hrow _ (List.getElem_mem hi')]; exact hj
    exact ⟨e, e[i], (e[i])[j], rfl, List.getElem?_eq_getElem hi',
      List.getElem?_eq_getElem hj', readElem_some e i j hi' hj'⟩

/-- A well-formed matrix that has a row has a column. -/
theorem wellFormed_dims {m : Matrix α} (hm : m.WellFormed) :
    m.rows = 0 ∨ 0 < m.columns := by
  unfold Matrix.WellFormed at hm
  cases he : m.elements with
  | none => rw [he] at hm; exact Or.inl hm.1
  | some e => rw [he] at hm; exact hm.2.2

/-- An allocated `r` by `c` matrix with `r = 0` or `c > 0` is well-formed. -/
theorem sized_wellFormed {m : Matrix α} {r c : Nat} (hm : m.Sized r c)
    (h : r = 0 ∨ 0 < c) : m.WellFormed := by
  obtain ⟨hr, hc, e, he, hlen, hrow⟩ := hm
  unfold Matrix.WellFormed
  rw [he]
  subst hr hc
  exact ⟨hlen, hrow, h⟩

end FillLemmas

section ElementwiseLemmas
variable {α : Type} [Zero α]

/-- On well-formed operands of equal dimensions an elementwise operator
succeeds and its result holds `op` of the two elements at every position. -/
theorem elementwise_spec (op : α → α → α) (a b : Matrix α) (ha : a.WellFormed)
    (hb : b.WellFormed) (hr : a.rows = b.rows) (hc : a.columns = b.columns) :
    ∃ R, elementwise op a b = Except.ok R ∧ R.WellFormed ∧
      R.rowSize = a.rowSize ∧ R.columnSize = a.columnSize ∧
      ∀ i j, i < a.rows → j < a.columns →
        ∃ x y, readElem a.elements i j = Except.ok x ∧
          readElem b.elements i j = Except.ok y ∧
          readElem R.elements i j = Except.ok (op x y) := by
  have hdims := wellFormed_dims ha
  have hfill := fill a.rows a.columns
    (fun i result =>
      forLoop a.columns
        (fun j result =>
          match readElem a.elements i j with
          | Except.error f => Except.error f
          | Except.ok x =>
            match readElem b.elements i j with
            | Except.error f => Except.error f
            | Except.ok y => result.store i j (op x y)) result)
    (fun i j v => ∃ x y, readElem a.elements i j = Except.ok x ∧
      readElem b.elements i j = Except.ok y ∧ v = op x y)
    (by
      intro i m hi hm
      apply fill_row a.rows a.columns i _ _ _ m hm
      intro j t hj ht
      obtain ⟨_, _, x, _, _, _, hx⟩ := wellFormed_read ha hi hj
      obtain ⟨_, _, y, _, _, _, hy⟩ := wellFormed_read hb (hr ▸ hi) (hc ▸ hj)
      obtain ⟨t', hrun, ht', hnew, hkeep⟩ := sized_store (op x y) ht hi hj
      refine ⟨t', ?_, ht', ⟨op x y, hnew, x, y, hx, hy, rfl⟩, hkeep⟩
      simp only [hx, hy]
      exact hrun)
    { rows := a.rows, columns := a.columns,
      elements := some (List.replicate a.rows (List.replicate a.columns 0)) }
    (allocate_sized a.rows a.columns _ (allocate_ok a.rows a.columns hdims))
  obtain ⟨R, hrun, hs, hcells⟩ := hfill
  refine ⟨R, ?_, sized_wellFormed hs hdims, hs.1, hs.2.1, ?_⟩
  · unfold elementwise
    rw [if_neg (fun h => h.1 hr), allocate_ok a.rows a.columns hdims]
    exact hrun
  · intro i j hi hj
    obtain ⟨v, hv, x, y, hx, hy, hxy⟩ := hcells i j hi hj
    exact ⟨x, y, hx, hy, hxy ▸ hv⟩

/-- Past the guard an elementwise operator throws no `std::invalid_argument`. -/
theorem elementwise_fault (op : α → α → α) (a b : Matrix α) (f : Fault)
    (hpass : ¬ (a.rows ≠ b.rows ∧ a.columns ≠ b.rows))
    (h : elementwise op a b = Except.error f) : f ≠ Fault.invalidArgument := by
  unfold elementwise at h
  rw [if_neg hpass] at h
  split at h
  · next g hg =>
    simp only [Except.error.injEq] at h
    rw [← h, allocate_fault _ _ _ hg]; decide
  · have hf : f = Fault.undefinedBehaviour := by
      refine forLoop_fault _ _ (fun f => f = Fault.undefinedBehaviour) ?_ _ f h
      intro i m g hg
      refine forLoop_fault _ _ (fun f => f = Fault.undefinedBehaviour) ?_ _ g hg
      intro j t k hk
      split at hk
      · next _ hread =>
        simp only [Except.error.injEq] at hk
        exact hk ▸ readElem_fault _ _ _ _ hread
      · split at hk
        · next _ hread =>
          simp only [Except.error.injEq] at hk
          exact hk ▸ readElem_fault _ _ _ _ hread
        · exact store_fault _ _ _ _ _ hk
    rw [hf]; decide

/-- The guard of the elementwise operators. -/
theorem elementwise_invalid (op : α → α → α) (a b : Matrix α) :
    elementwise op a b = Except.error Fault.invalidArgument ↔
      (a.rows ≠ b.rows ∧ a.columns ≠ b.rows) := by
  constructor
  · intro h
    by_contra hpass
    exact elementwise_fault op a b _ hpass h rfl
  · intro h
    unfold elementwise
    rw [if_pos h]

end ElementwiseLemmas

section DotLemmas
variable {α : Type} [Add α] [Mul α]

/-- The only fault of `dotStep` is an access outside a buffer. -/
theorem dotStep_fault (a b : Matrix α) (i j k : Nat) (m : Matrix α) (f : Fault)
    (h : dotStep a b i j k m = Except.error f) : f = Fault.undefinedBehaviour := by
  unfold dotStep at h
  split at h
  · next _ hread =>
    simp only [Except.error.injEq] at h
    exact h ▸ readElem_fault _ _ _ _ hread
  · split at h
    · next _ hread =>
      simp only [Except.error.injEq] at h
      exact h ▸ readElem_fault _ _ _ _ hread
    · split at h
      · next _ hread =>
        simp only [Except.error.injEq] at h
        exact h ▸ readElem_fault _ _ _ _ hread
      · exact store_fault _ _ _ _ _ h

variable [Zero α]

/-- The only fault of `dotCell` is an access outside a buffer. -/
theorem dotCell_fault (a b : Matrix α) (i j : Nat) (m : Matrix α) (f : Fault)
    (h : dotCell a b i j m = Except.error f) : f = Fault.undefinedBehaviour := by
  unfold dotCell at h
  split at h
  · next _ hstore =>
    simp only [Except.error.injEq] at h
    exact h ▸ store_fault _ _ _ _ _ hstore
  · exact forLoop_fault _ _ (fun f => f = Fault.undefinedBehaviour)
      (fun k t g hg => dotStep_fault a b i j k t g hg) _ f h

/-- Past the guard `dot` throws no `std::invalid_argument`. -/
theorem dot_fault (a b : Matrix α) (f : Fault) (hpass : a.columns = b.rows)
    (h : a.dot b = Except.error f) : f ≠ Fault.invalidArgument := by
  unfold Matrix.dot at h
  rw [if_neg (fun hne => hne hpass)] at h
  split at h
  · next g hg =>
    simp only [Except.error.injEq] at h
    rw [← h, allocate_fault _ _ _ hg]; decide
  · have hf : f = Fault.undefinedBehaviour := by
      refine forLoop_fault _ _ (fun f => f = Fault.undefinedBehaviour) ?_ _ f h
      intro i m g hg
      exact forLoop_fault _ _ (fun f => f = Fault.undefinedBehaviour)
        (fun j t k hk => dotCell_fault a b i j t k hk) _ g hg
    rw [hf]; decide

/-- When the left operand has no rows, `dot` returns a matrix with no rows. -/
theorem dot_no_rows (a b : Matrix α) (hpass : a.columns = b.rows) (h0 : a.rows = 0) :
    a.dot b = Except.ok { rows := a.rows, columns := b.columns, elements := some [] } := by
  unfold Matrix.dot
  rw [if_neg (fun hne => hne hpass), allocate_ok a.rows b.columns (Or.inl h0)]
  simp only [h0]
  rfl

end DotLemmas

section DotSpec
variable {α : Type} [Zero α]

/-- `entry` is the element read, where there is one. -/
theorem entry_of_read {m : Matrix α} {i j : Nat} {v : α}
    (h : readElem m.elements i j = Except.ok v) : m.entry i j = v := by
  simp [Matrix.entry, h]

variable [Add α] [Mul α]

/-- When the right operand has no more columns than rows, the body of the loop
over `j` of `dot` leaves in position `(i, j)` the sum of the products for
`k < matrix.columns` and changes no other position. -/
theorem dotCell_spec (a b : Matrix α) (ha : a.WellFormed) (hb : b.WellFormed)
    (hpass : a.columns = b.rows) (hle : b.columns ≤ a.columns)
    (i j : Nat) (hi : i < a.rows) (hj : j < b.columns)
    (m : Matrix α) (hm : m.Sized a.rows b.columns) :
    ∃ m', dotCell a b i j m = Except.ok m' ∧ m'.Sized a.rows b.columns ∧
      (∃ v, readElem m'.elements i j = Except.ok v ∧ v = productSum a b i j b.columns) ∧
      ∀ i' j', (i' ≠ i ∨ j' ≠ j) →
        readElem m'.elements i' j' = readElem m.elements i' j' := by
  obtain ⟨m0, hrun0, hm0, hnew0, hkeep0⟩ := sized_store (0 : α) hm hi hj
  have hloop := forLoop_invariant b.columns (dotStep a b i j)
    (fun k t => t.Sized a.rows b.columns ∧
      readElem t.elements i j = Except.ok (productSum a b i j k) ∧
      ∀ i' j', (i' ≠ i ∨ j' ≠ j) →
        readElem t.elements i' j' = readElem m.elements i' j')
    m0 ⟨hm0, hnew0, hkeep0⟩
    (by
      intro k t hk ⟨ht, hacc, hframe⟩
      obtain ⟨_, _, x, _, _, _, hx⟩ := wellFormed_read ha hi (show k < a.columns by omega)
      obtain ⟨_, _, y, _, _, _, hy⟩ := wellFormed_read hb (show k < b.rows by omega) hj
      obtain ⟨t', hrun, ht', hnew, hkeep⟩ :=
        sized_store (productSum a b i j k + x * y) ht hi hj
      refine ⟨t', ?_, ht', ?_, ?_⟩
      · simp only [dotStep, hacc, hx, hy]
        exact hrun
      · simp only [productSum, entry_of_read hx, entry_of_read hy]
        exact hnew
      · intro i' j' hne
        rw [hkeep i' j' hne]
        exact hframe i' j' hne)
  obtain ⟨m', hrun, hs, hacc, hframe⟩ := hloop
  refine ⟨m', ?_, hs, ⟨_, hacc, rfl⟩, hframe⟩
  simp only [dotCell, hrun0]
  exact hrun

/-- What `dot` returns when the right operand has no more columns than rows:
element `(i, j)` is the sum of the products `a[i][k] * b[k][j]` for
`k < b.columns`, which is the whole inner dimension only if `b` is square. -/
theorem dot_computes (a b : Matrix α) (ha : a.WellFormed) (hb : b.WellFormed)
    (hpass : a.columns = b.rows) (hle : b.columns ≤ a.columns) :
    ∃ R, a.dot b = Except.ok R ∧ R.WellFormed ∧
      R.rowSize = a.rowSize ∧ R.columnSize = b.columnSize ∧
      ∀ i j, i < a.rows → j < b.columns →
        readElem R.elements i j = Except.ok (productSum a b i j b.columns) := by
  have hdims : a.rows = 0 ∨ 0 < b.columns := by
    rcases wellFormed_dims ha with h | h
    · exact Or.inl h
    · rcases wellFormed_dims hb with h' | h'
      · omega
      · exact Or.inr h'
  have hfill := fill a.rows b.columns
    (fun i result => forLoop result.columns (dotCell a b i) result)
    (fun i j v => v = productSum a b i j b.columns)
    (by
      intro i m hi hm
      simp only [hm.2.1]
      apply fill_row a.rows b.columns i _ _ _ m hm
      intro j t hj ht
      exact dotCell_spec a b ha hb hpass hle i j hi hj t ht)
    { rows := a.rows, columns := b.columns,
      elements := some (List.replicate a.rows (List.replicate b.columns 0)) }
    (allocate_sized a.rows b.columns _ (allocate_ok a.rows b.columns hdims))
  obtain ⟨R, hrun, hs, hcells⟩ := hfill
  refine ⟨R, ?_, sized_wellFormed hs hdims, hs.1, hs.2.1, ?_⟩
  · unfold Matrix.dot
    rw [if_neg (fun hne => hne hpass), allocate_ok a.rows b.columns hdims]
    exact hrun
  · intro i j hi hj
    obtain ⟨v, hv, hval⟩ := hcells i j hi hj
    exact hval ▸ hv

/-- When the right operand has more columns than rows, and the left operand
has a row, the loop over `k` of `dot` reads `this->elements[0][k]` at
`k = this->columns`, outside the row. -/
theorem dot_reads_outside (a b : Matrix α) (ha : a.WellFormed)
    (hb : b.WellFormed) (hpass : a.columns = b.rows) (hlt : a.columns < b.columns)
    (hrows : 0 < a.rows) :
    a.dot b = Except.error Fault.undefinedBehaviour := by
  have hcols : 0 < b.columns := by omega
  have hm0 := allocate_sized a.rows b.columns _
    (allocate_ok (α := α) a.rows b.columns (Or.inr hcols))
  obtain ⟨m0, hrun0, hs0, hnew0, _⟩ := sized_store (0 : α) hm0 hrows hcols
  have hk : forLoop b.columns (dotStep a b 0 0) m0 =
      Except.error Fault.undefinedBehaviour := by
    apply forLoop_guarded b.columns (dotStep a b 0 0)
      (fun _ t => t.Sized a.rows b.columns) (fun k => k < a.columns)
      Fault.undefinedBehaviour m0 hs0
    · intro k t _ ht hgood
      obtain ⟨acc, hacc⟩ := sized_read ht hrows hcols
      obtain ⟨_, _, x, _, _, _, hx⟩ := wellFormed_read ha hrows hgood
      obtain ⟨_, _, y, _, _, _, hy⟩ :=
        wellFormed_read hb (show k < b.rows by omega) hcols
      obtain ⟨t', hrun, ht', _, _⟩ := sized_store (acc + x * y) ht hrows hcols
      exact ⟨t', by simp only [dotStep, hacc, hx, hy]; exact hrun, ht'⟩
    · intro k t _ ht hbad
      obtain ⟨acc, hacc⟩ := sized_read ht hrows hcols
      cases hx : readElem a.elements 0 k with
      | error g =>
        simp only [dotStep, hacc, hx, readElem_fault _ _ _ _ hx]
      | ok x =>
        exfalso
        have hwf := ha
        unfold Matrix.WellFormed at hwf
        cases he : a.elements with
        | none => rw [he] at hwf; omega
        | some e =>
          rw [he] at hwf hx
          obtain ⟨hlen, hrow, _⟩ := hwf
          have h0 : 0 < e.length := by omega
          have hl : (e[0]).length = a.columns := hrow _ (List.getElem_mem h0)
          simp only [readElem, List.getElem?_eq_getElem h0] at hx
          have hnone : (e[0])[k]? = none := List.getElem?_eq_none (by omega)
          rw [hnone] at hx
          simp at hx
    · exact ⟨a.columns, hlt, Nat.lt_irrefl _⟩
  have hcell : dotCell a b 0 0
      { rows := a.rows, columns := b.columns,
        elements := some (List.replicate a.rows (List.replicate b.columns 0)) } =
      Except.error Fault.undefinedBehaviour := by
    simp only [dotCell, hrun0]
    exact hk
  unfold Matrix.dot
  rw [if_neg (fun hne => hne hpass), allocate_ok a.rows b.columns (Or.inr hcols)]
  exact forLoop_first_fault _ _ _ _ hrows (forLoop_first_fault _ _ _ _ hcols hcell)

/-- A row of no columns cannot be allocated, and a matrix object that had one
would not be well-formed; on such an object `dot` would read outside the
arrays. -/
theorem dot_on_unallocatable_operand :
    (Matrix.sized 1 0 : Except Fault (Matrix Int)) = Except.error Fault.badArrayNewLength ∧
    ¬ ({ rows := 1, columns := 0, elements := some [[]] } : Matrix Int).WellFormed ∧
    ({ rows := 1, columns := 0, elements := some [[]] } : Matrix Int).dot
        { rows := 0, columns := 1, elements := some [] } =
      Except.error Fault.undefinedBehaviour := by
  decide

end DotSpec

section TransposeLemmas
variable {α : Type} [Zero α]

/-- On a well-formed matrix that has a row, or has no column, `transpose`
returns the matrix of swapped dimensions with `result[i][j] = a[j][i]`. -/
theorem transpose_spec (a : Matrix α) (ha : a.WellFormed)
    (h : a.columns = 0 ∨ 0 < a.rows) :
    ∃ R, a.transpose = Except.ok R ∧ R.WellFormed ∧
      R.rowSize = a.columnSize ∧ R.columnSize = a.rowSize ∧
      ∀ i j, i < a.columns → j < a.rows →
        ∃ v, readElem a.elements j i = Except.ok v ∧
          readElem R.elements i j = Except.ok v := by
  have hfill := fill a.columns a.rows
    (fun i result =>
      forLoop result.columns
        (fun j result =>
          match readElem a.elements j i with
          | Except.error f => Except.error f
          | Except.ok v => result.store i j v) result)
    (fun i j v => readElem a.elements j i = Except.ok v)
    (by
      intro i m hi hm
      simp only [hm.2.1]
      apply fill_row a.columns a.rows i _ _ _ m hm
      intro j t hj ht
      obtain ⟨_, _, x, _, _, _, hx⟩ := wellFormed_read ha hj hi
      obtain ⟨t', hrun, ht', hnew, hkeep⟩ := sized_store x ht hi hj
      refine ⟨t', ?_, ht', ⟨x, hnew, hx⟩, hkeep⟩
      simp only [hx]
      exact hrun)
    { rows := a.columns, columns := a.rows,
      elements := some (List.replicate a.columns (List.replicate a.rows 0)) }
    (allocate_sized a.columns a.rows _ (allocate_ok a.columns a.rows h))
  obtain ⟨R, hrun, hs, hcells⟩ := hfill
  refine ⟨R, ?_, sized_wellFormed hs h, hs.1, hs.2.1, ?_⟩
  · unfold Matrix.transpose
    rw [allocate_ok a.columns a.rows h]
    exact hrun
  · intro i j hi hj
    obtain ⟨v, hv, hval⟩ := hcells i j hi hj
    exact ⟨v, hval, hv⟩

/-- The transpose of a matrix with no rows and at least one column asks for
rows of zero elements, and ends with `std::bad_array_new_length`. -/
theorem transpose_of_no_rows (a : Matrix α) (h0 : a.rows = 0) (hc : 0 < a.columns) :
    a.transpose = Except.error Fault.badArrayNewLength := by
  unfold Matrix.transpose
  rw [allocate_eq, if_pos ⟨by omega, h0⟩]

/-- On a well-formed matrix that has a row, or has no column, transposing
twice returns a matrix with the dimensions and the elements of the original. -/
theorem transpose_transpose_spec (a : Matrix α) (ha : a.WellFormed)
    (h : a.columns = 0 ∨ 0 < a.rows) :
    ∃ T R, a.transpose = Except.ok T ∧ T.transpose = Except.ok R ∧ R.WellFormed ∧
      R.rowSize = a.rowSize ∧ R.columnSize = a.columnSize ∧
      ∀ i j, i < a.rows → j < a.columns →
        ∃ v, readElem a.elements i j = Except.ok v ∧
          readElem R.elements i j = Except.ok v := by
  obtain ⟨T, hT, hTwf, hTr, hTc, hTcells⟩ := transpose_spec a ha h
  have hTr' : T.rows = a.columns := hTr
  have hTc' : T.columns = a.rows := hTc
  have hdims := wellFormed_dims ha
  obtain ⟨R, hR, hRwf, hRr, hRc, hRcells⟩ := transpose_spec T hTwf (by omega)
  refine ⟨T, R, hT, hR, hRwf, ?_, ?_, ?_⟩
  · show R.rows = a.rows
    have : R.rows = T.columns := hRr
    omega
  · show R.columns = a.columns
    have : R.columns = T.rows := hRc
    omega
  · intro i j hi hj
    obtain ⟨v, hv1, hv2⟩ := hRcells i j (by omega) (by omega)
    obtain ⟨w, hw1, hw2⟩ := hTcells j i hj hi
    rw [hw2] at hv1
    simp only [Except.ok.injEq] at hv1
    exact ⟨w, hw1, hv1 ▸ hv2⟩

end TransposeLemmas

section LiteralLemmas
variable {α : Type}

/-- A size that fits `unsigned` is unchanged by the conversion. -/
theorem toUnsigned_of_lt {n : Nat} (h : n < 2 ^ unsignedBits) : toUnsigned n = n :=
  Nat.mod_eq_of_lt h

/-- A row of the literal of the expected length is copied into row `i`. -/
theorem literalRow_ok (list : List (List α)) (rows columns i : Nat) (m : Matrix α)
    (src : List α) (hm : m.Sized rows columns) (hi : i < rows)
    (hsrc : list[i]? = some src) (hlen : src.length = columns) :
    ∃ m', literalRow list columns i m = Except.ok m' ∧ m'.Sized rows columns ∧
      (∀ j, j < columns → ∃ v, readElem m'.elements i j = Except.ok v ∧
        ∃ row, list[i]? = some row ∧ row[j]? = some v) ∧
      ∀ i' j', i' ≠ i → readElem m'.elements i' j' = readElem m.elements i' j' := by
  have hrow := fill_row rows columns i
    (fun j m =>
      match src[j]? with
      | none => Except.error Fault.undefinedBehaviour
      | some v => m.store i j v)
    (fun j v => ∃ row, list[i]? = some row ∧ row[j]? = some v)
    (by
      intro j t hj ht
      have hj' : j < src.length := by omega
      obtain ⟨t', hrun, ht', hnew, hkeep⟩ := sized_store (src[j]) ht hi hj
      refine ⟨t', ?_, ht', ⟨src[j], hnew, src, hsrc, List.getElem?_eq_getElem hj'⟩, hkeep⟩
      simp only [List.getElem?_eq_getElem hj']
      exact hrun)
    m hm
  obtain ⟨m', hrun, hs, hdone, hframe⟩ := hrow
  refine ⟨m', ?_, hs, hdone, hframe⟩
  simp only [literalRow, hsrc, hlen, hm.2.1, ne_eq, not_true_eq_false, if_false]
  exact hrun

/-- A row of the literal of another length makes the constructor throw
`std::invalid_argument`. -/
theorem literalRow_bad (list : List (List α)) (columns i : Nat) (m : Matrix α)
    (src : List α) (hsrc : list[i]? = some src) (hlen : src.length ≠ columns) :
    literalRow list columns i m = Except.error Fault.invalidArgument := by
  simp only [literalRow, hsrc, if_pos hlen]

variable [Zero α]

/-- On a literal whose first row is not empty, whose rows all have the length of
the first and whose sizes fit `unsigned`, the literal-list constructor succeeds;
the row and column counts are those of the literal and `at(i, j)` returns the
element `j` of its row `i`. -/
theorem ofLiteral_spec (first : List α) (rest : List (List α))
    (hrows : (first :: rest).length < 2 ^ unsignedBits)
    (hcols : first.length < 2 ^ unsignedBits) (hpos : 0 < first.length)
    (hsame : ∀ row ∈ first :: rest, row.length = first.length) :
    ∃ R, Matrix.ofLiteral (first :: rest) = Except.ok R ∧ R.WellFormed ∧
      R.rowSize = (first :: rest).length ∧ R.columnSize = first.length ∧
      ∀ i j, i < (first :: rest).length → j < first.length →
        ∃ row v, (first :: rest)[i]? = some row ∧ row[j]? = some v ∧
          R.atConst i j = Except.ok v := by
  have hfill := fill (first :: rest).length first.length
    (literalRow (first :: rest) first.length)
    (fun i j v => ∃ row, (first :: rest)[i]? = some row ∧ row[j]? = some v)
    (by
      intro i m hi hm
      have hsrc : (first :: rest)[i]? = some ((first :: rest)[i]) :=
        List.getElem?_eq_getElem hi
      exact literalRow_ok (first :: rest) _ _ i m _ hm hi hsrc
        (hsame _ (List.getElem_mem hi)))
    { rows := (first :: rest).length, columns := first.length,
      elements := some
        (List.replicate (first :: rest).length (List.replicate first.length 0)) }
    (allocate_sized _ _ _ (allocate_ok _ _ (Or.inr hpos)))
  obtain ⟨R, hrun, hs, hcells⟩ := hfill
  refine ⟨R, ?_, sized_wellFormed hs (Or.inr hpos), hs.1, hs.2.1, ?_⟩
  · simp only [Matrix.ofLiteral, toUnsigned_of_lt hrows, toUnsigned_of_lt hcols,
      allocate_ok _ _ (Or.inr hpos)]
    exact hrun
  · intro i j hi hj
    obtain ⟨v, hv, row, hrow, hval⟩ := hcells i j hi hj
    refine ⟨row, v, hrow, hval, ?_⟩
    have h1 : ¬ (i ≥ R.rows ∨ j ≥ R.columns) := by
      rw [hs.1, hs.2.1]; omega
    simp only [Matrix.atConst, if_neg h1]
    exact hv

/-- On a literal whose first row is not empty and whose sizes fit `unsigned`,
the literal-list constructor throws `std::invalid_argument` exactly when a row
differs in length from the first. -/
theorem ofLiteral_invalid_iff (first : List α) (rest : List (List α))
    (hrows : (first :: rest).length < 2 ^ unsignedBits)
    (hcols : first.length < 2 ^ unsignedBits) (hpos : 0 < first.length) :
    Matrix.ofLiteral (first :: rest) = Except.error Fault.invalidArgument ↔
      ∃ row ∈ first :: rest, row.length ≠ first.length := by
  constructor
  · intro h
    by_contra hnone
    have hsame : ∀ row ∈ first :: rest, row.length = first.length := by
      intro row hrow
      by_contra hne
      exact hnone ⟨row, hrow, hne⟩
    obtain ⟨R, hR, _⟩ := ofLiteral_spec first rest hrows hcols hpos hsame
    rw [hR] at h
    simp at h
  · intro ⟨row, hmem, hne⟩
    obtain ⟨k, hk, hkrow⟩ := List.getElem_of_mem hmem
    have hloop := forLoop_guarded (first :: rest).length
      (literalRow (first :: rest) first.length)
      (fun _ m => m.Sized (first :: rest).length first.length)
      (fun i => ∀ src, (first :: rest)[i]? = some src → src.length = first.length)
      Fault.invalidArgument
      { rows := (first :: rest).length, columns := first.length,
        elements := some
          (List.replicate (first :: rest).length (List.replicate first.length 0)) }
      (allocate_sized _ _ _ (allocate_ok _ _ (Or.inr hpos)))
      (by
        intro i m hi hm hgood
        have hsrc : (first :: rest)[i]? = some ((first :: rest)[i]) :=
          List.getElem?_eq_getElem hi
        obtain ⟨m', hrun, hs, _, _⟩ :=
          literalRow_ok (first :: rest) _ _ i m _ hm hi hsrc (hgood _ hsrc)
        exact ⟨m', hrun, hs⟩)
      (by
        intro i m hi _ hbad
        have hsrc : (first :: rest)[i]? = some ((first :: rest)[i]) :=
          List.getElem?_eq_getElem hi
        apply literalRow_bad (first :: rest) _ i m _ hsrc
        intro heq
        apply hbad
        intro src hsrc'
        rw [hsrc] at hsrc'
        simp only [Option.some.injEq] at hsrc'
        exact hsrc' ▸ heq)
      ⟨k, hk, fun hgood => hne (hkrow ▸ hgood _ (List.getElem?_eq_getElem hk))⟩
    simp only [Matrix.ofLiteral, toUnsigned_of_lt hrows, toUnsigned_of_lt hcols,
      allocate_ok _ _ (Or.inr hpos)]
    exact hloop

/-- A literal whose first row is empty is rejected by the allocation, with
`std::bad_array_new_length`, whatever its other rows are. -/
theorem ofLiteral_empty_first_row (rest : List (List α))
    (hrows : (([] : List α) :: rest).length < 2 ^ unsignedBits) :
    Matrix.ofLiteral (([] : List α) :: rest) = Except.error Fault.badArrayNewLength := by
  have h0 : toUnsigned ([] : List α).length = 0 := by simp [toUnsigned]
  simp only [Matrix.ofLiteral, toUnsigned_of_lt hrows, h0]
  rw [allocate_eq, if_pos ⟨by simp, rfl⟩]

/-- `Matrix(r, 0)` with `r > 0` ends with `std::bad_array_new_length`. -/
theorem sized_no_columns (r : Nat) (hr : 0 < r) :
    (Matrix.sized r 0 : Except Fault (Matrix α)) = Except.error Fault.badArrayNewLength := by
  unfold Matrix.sized
  rw [allocate_eq, if_pos ⟨by omega, rfl⟩]

end LiteralLemmas

section InvariantLemmas
variable {α : Type}

/-- A well-formed matrix that has a row is allocated, with its dimensions. -/
theorem wellFormed_sized {m : Matrix α} (hm : m.WellFormed) (h : 0 < m.rows) :
    m.Sized m.rows m.columns := by
  unfold Matrix.WellFormed at hm
  cases he : m.elements with
  | none => rw [he] at hm; omega
  | some e =>
    rw [he] at hm
    exact ⟨rfl, rfl, e, he, hm.1, hm.2.1⟩

/-- A matrix that `allocate` returns is well-formed. -/
theorem allocate_wellFormed [Zero α] (r c : Nat) (m : Matrix α)
    (h : allocate r c = Except.ok m) : m.WellFormed := by
  have hs := allocate_sized r c m h
  refine sized_wellFormed hs ?_
  rw [allocate_eq] at h
  split at h
  · simp at h
  · omega

/-- Past its guard `at` returns the element stored at the position. -/
theorem at_in_bounds {m : Matrix α} {row column : Nat} (hm : m.WellFormed)
    (h : ¬ (row ≥ m.rows ∨ column ≥ m.columns)) :
    ∃ e r v, m.elements = some e ∧ e[row]? = some r ∧ r[column]? = some v ∧
      m.atMut row column = Except.ok v ∧ m.atConst row column = Except.ok v := by
  obtain ⟨e, r, v, he, hr, hv, hread⟩ :=
    wellFormed_read hm (show row < m.rows by omega) (show column < m.columns by omega)
  refine ⟨e, r, v, he, hr, hv, ?_, ?_⟩
  · simp only [Matrix.atMut, if_neg h]; exact hread
  · simp only [Matrix.atConst, if_neg h]; exact hread

end InvariantLemmas

/-! ## Scalar operators, the free store, copies and moves -/

section ScalarLemmas
variable {α : Type} [Zero α]

/-- On a well-formed operand a scalar operator succeeds and its result holds
`op` of the element at every position. -/
theorem scalarwise_spec (op : α → α) (a : Matrix α) (ha : a.WellFormed) :
    ∃ R, scalarwise op a = Except.ok R ∧ R.WellFormed ∧ IsScalarwise op a R := by
  have hdims := wellFormed_dims ha
  have hfill := fill a.rows a.columns
    (fun i result =>
      forLoop a.columns
        (fun j result =>
          match readElem a.elements i j with
          | Except.error f => Except.error f
          | Except.ok x => result.store i j (op x)) result)
    (fun i j v => ∃ x, readElem a.elements i j = Except.ok x ∧ v = op x)
    (by
      intro i m hi hm
      apply fill_row a.rows a.columns i _ _ _ m hm
      intro j t hj ht
      obtain ⟨_, _, x, _, _, _, hx⟩ := wellFormed_read ha hi hj
      obtain ⟨t', hrun, ht', hnew, hkeep⟩ := sized_store (op x) ht hi hj
      refine ⟨t', ?_, ht', ⟨op x, hnew, x, hx, rfl⟩, hkeep⟩
      simp only [hx]
      exact hrun)
    { rows := a.rows, columns := a.columns,
      elements := some (List.replicate a.rows (List.replicate a.columns 0)) }
    (allocate_sized a.rows a.columns _ (allocate_ok a.rows a.columns hdims))
  obtain ⟨R, hrun, hs, hcells⟩ := hfill
  refine ⟨R, ?_, sized_wellFormed hs hdims, hs.1, hs.2.1, ?_⟩
  · unfold scalarwise
    rw [allocate_ok a.rows a.columns hdims]
    exact hrun
  · intro i j hi hj
    obtain ⟨v, hv, x, hx, hxy⟩ := hcells i j hi hj
    exact ⟨x, hx, hxy ▸ hv⟩

/-- `Matrix(r, c)` with `r = 0` or `c > 0` yields `r` rows of `c` zeros. -/
theorem sized_spec (r c : Nat) (h : r = 0 ∨ 0 < c) :
    ∃ R : Matrix α, Matrix.sized r c = Except.ok R ∧ R.WellFormed ∧
      R.rowSize = r ∧ R.columnSize = c ∧
      ∀ i j, i < r → j < c → readElem R.elements i j = Except.ok 0 := by
  refine ⟨_, allocate_ok r c h, ?_, rfl, rfl, ?_⟩
  · exact allocate_wellFormed r c _ (allocate_ok r c h)
  · intro i j hi hj
    simp [readElem, hi, hj]

end ScalarLemmas


section KeepLoops
variable {σ : Type}

/-- Invariant rule for `loopKeepFrom`. -/
theorem loopKeepFrom_invariant (body : Nat → σ → σ × Option Fault) (P : Nat → σ → Prop) :
    ∀ (count i : Nat) (s : σ), P i s →
      (∀ k t, i ≤ k → k < i + count → P k t → ∃ t', body k t = (t', none) ∧ P (k + 1) t') →
      ∃ s', loopKeepFrom body count i s = (s', none) ∧ P (i + count) s' := by
  intro count
  induction count with
  | zero => intro i s h _; exact ⟨s, rfl, h⟩
  | succ n ih =>
    intro i s h hstep
    obtain ⟨t, ht, hP⟩ := hstep i s (Nat.le_refl i) (by omega) h
    obtain ⟨s', hs', hP'⟩ := ih (i + 1) t hP
      (fun k u hk hlt hu => hstep k u (by omega) (by omega) hu)
    refine ⟨s', ?_, ?_⟩
    · simp only [loopKeepFrom, ht]; exact hs'
    · have : i + (n + 1) = i + 1 + n := by omega
      rw [this]; exact hP'

/-- Invariant rule for `forLoopKeep`. -/
theorem forLoopKeep_invariant (n : Nat) (body : Nat → σ → σ × Option Fault)
    (P : Nat → σ → Prop) (s : σ) (h0 : P 0 s)
    (hstep : ∀ k t, k < n → P k t → ∃ t', body k t = (t', none) ∧ P (k + 1) t') :
    ∃ s', forLoopKeep n body s = (s', none) ∧ P n s' := by
  have := loopKeepFrom_invariant body P n 0 s h0
    (fun k t _ hk hP => hstep k t (by omega) hP)
  simpa [forLoopKeep] using this

/-- A property of the state that every iteration keeps, whether it faults or
not, holds of the state in which the loop ends. -/
theorem loopKeepFrom_preserves (body : Nat → σ → σ × Option Fault) (P : σ → Prop)
    (hbody : ∀ k t, P t → P (body k t).1) :
    ∀ (count i : Nat) (s : σ), P s → P (loopKeepFrom body count i s).1 := by
  intro count
  induction count with
  | zero => intro i s h; exact h
  | succ n ih =>
    intro i s h
    have hb := hbody i s h
    simp only [loopKeepFrom]
    cases hr : body i s with
    | mk t fault =>
      rw [hr] at hb
      cases fault with
      | some f => exact hb
      | none => exact ih (i + 1) t hb

/-- The rule `loopKeepFrom_preserves` for `forLoopKeep`. -/
theorem forLoopKeep_preserves (n : Nat) (body : Nat → σ → σ × Option Fault) (P : σ → Prop)
    (hbody : ∀ k t, P t → P (body k t).1) (s : σ) (h : P s) :
    P (forLoopKeep n body s).1 :=
  loopKeepFrom_preserves body P hbody n 0 s h

end KeepLoops

section KeepFill
variable {σ α : Type}

/-- The loop over `j` of a loop nest on a state `s` whose elements are read by
`cell`: if the body at `j` keeps `Inv`, makes position `(i, j)` satisfy `G j`
and changes no other position, the loop makes row `i` satisfy `G` and changes
no other row. -/
theorem keepFill_row (Inv : σ → Prop) (cell : σ → Nat → Nat → Except Fault α)
    (c i : Nat) (cellBody : Nat → σ → σ × Option Fault) (G : Nat → α → Prop)
    (hcell : ∀ j s, j < c → Inv s →
      ∃ s', cellBody j s = (s', none) ∧ Inv s' ∧
        (∃ v, cell s' i j = Except.ok v ∧ G j v) ∧
        ∀ i' j', (i' ≠ i ∨ j' ≠ j) → cell s' i' j' = cell s i' j')
    (s : σ) (hs : Inv s) :
    ∃ s', forLoopKeep c cellBody s = (s', none) ∧ Inv s' ∧
      (∀ j, j < c → ∃ v, cell s' i j = Except.ok v ∧ G j v) ∧
      ∀ i' j', i' ≠ i → cell s' i' j' = cell s i' j' := by
  have h := forLoopKeep_invariant c cellBody
    (fun k t => Inv t ∧
      (∀ j, j < k → ∃ v, cell t i j = Except.ok v ∧ G j v) ∧
      ∀ i' j', i' ≠ i → cell t i' j' = cell s i' j')
    s ⟨hs, fun j hj => absurd hj (Nat.not_lt_zero j), fun _ _ _ => rfl⟩
    (by
      intro k t hk ⟨ht, hdone, hframe⟩
      obtain ⟨t', hrun, ht', hnew, hkeep⟩ := hcell k t hk ht
      refine ⟨t', hrun, ht', ?_, ?_⟩
      · intro j hj
        by_cases hjk : j = k
        · subst hjk; exact hnew
        · rw [hkeep i j (Or.inr hjk)]
          exact hdone j (by omega)
      · intro i' j' hi'
        rw [hkeep i' j' (Or.inl hi')]
        exact hframe i' j' hi')
  obtain ⟨s', hrun, hs', hdone, hframe⟩ := h
  exact ⟨s', hrun, hs', hdone, hframe⟩

/-- The loop over `i` of a loop nest, as in `keepFill_row`. -/
theorem keepFill (Inv : σ → Prop) (cell : σ → Nat → Nat → Except Fault α)
    (r c : Nat) (rowBody : Nat → σ → σ × Option Fault) (G : Nat → Nat → α → Prop)
    (hrow : ∀ i s, i < r → Inv s →
      ∃ s', rowBody i s = (s', none) ∧ Inv s' ∧
        (∀ j, j < c → ∃ v, cell s' i j = Except.ok v ∧ G i j v) ∧
        ∀ i' j', i' ≠ i → cell s' i' j' = cell s i' j')
    (s : σ) (hs : Inv s) :
    ∃ s', forLoopKeep r rowBody s = (s', none) ∧ Inv s' ∧
      ∀ i j, i < r → j < c → ∃ v, cell s' i j = Except.ok v ∧ G i j v := by
  have h := forLoopKeep_invariant r rowBody
    (fun k t => Inv t ∧
      ∀ i j, i < k → j < c → ∃ v, cell t i j = Except.ok v ∧ G i j v)
    s ⟨hs, fun i _ hi => absurd hi (Nat.not_lt_zero i)⟩
    (by
      intro k t hk ⟨ht, hdone⟩
      obtain ⟨t', hrun, ht', hnew, hkeep⟩ := hrow k t hk ht
      refine ⟨t', hrun, ht', ?_⟩
      intro i j hi hj
      by_cases hik : i = k
      · subst hik; exact hnew j hj
      · rw [hkeep i j hik]
        exact hdone i j (by omega) hj)
  obtain ⟨s', hrun, hs', hdone⟩ := h
  exact ⟨s', hrun, hs', hdone⟩

end KeepFill

section HeapLemmas
variable {α : Type}

/-- A pointer to a live buffer designates it. -/
theorem deref_live {h : Heap α} {p : Nat} {e : List (List α)}
    (hp : h[p]? = some (some e)) : deref h (some p) = some e := by
  simp [deref, hp]

/-- Outside the address `p` the pointers designate the same buffers in two free
stores that are the same except at `p`. -/
theorem deref_sameExcept {h0 h : Heap α} {p : Nat} (hs : SameExcept h0 p h)
    (q : Option Nat) (hq : q ≠ some p) : deref h q = deref h0 q := by
  cases q with
  | none => rfl
  | some a =>
    have hne : a ≠ p := fun heq => hq (heq ▸ rfl)
    simp [deref, hs.2 a hne]

/-- The relation `SameExcept` is reflexive. -/
theorem sameExcept_refl (h : Heap α) (p : Nat) : SameExcept h p h :=
  ⟨rfl, fun _ _ => rfl⟩

/-- The relation `SameExcept` is transitive. -/
theorem sameExcept_trans {h0 h1 h2 : Heap α} {p : Nat} (h01 : SameExcept h0 p h1)
    (h12 : SameExcept h1 p h2) : SameExcept h0 p h2 :=
  ⟨h12.1.trans h01.1, fun q hq => (h12.2 q hq).trans (h01.2 q hq)⟩

/-- A store at a position of a live `r` by `c` buffer succeeds, keeps the shape
of the buffer, touches no other buffer, makes the position hold the value and
changes no other position. -/
theorem heapStore_block (h : Heap α) (p r c i j : Nat) (v : α)
    (hb : BlockSized h p r c) (hi : i < r) (hj : j < c) :
    ∃ h', heapStore h (some p) i j v = (h', none) ∧ BlockSized h' p r c ∧
      SameExcept h p h' ∧
      readElem (deref h' (some p)) i j = Except.ok v ∧
      ∀ i' j', (i' ≠ i ∨ j' ≠ j) →
        readElem (deref h' (some p)) i' j' = readElem (deref h (some p)) i' j' := by
  obtain ⟨e, he, hlen, hrow⟩ := hb
  have hp : p < h.length := by
    by_contra hge
    rw [List.getElem?_eq_none (by omega)] at he
    simp at he
  have hm : ({ rows := r, columns := c, elements := some e } : Matrix α).Sized r c :=
    ⟨rfl, rfl, e, rfl, hlen, hrow⟩
  obtain ⟨m', hrun, hm', hnew, hkeep⟩ := sized_store v hm hi hj
  obtain ⟨_, _, e', he', hlen', hrow'⟩ := hm'
  have hw : writeElem (some e) i j v = Except.ok (some e') := by
    unfold Matrix.store at hrun
    simp only at hrun
    split at hrun
    · simp at hrun
    · next el hel =>
      simp only [Except.ok.injEq] at hrun
      rw [hel, ← he', ← hrun]
  have hd' : deref (h.set p (some e')) (some p) = some e' := by
    simp [deref, List.getElem?_set_self hp]
  refine ⟨h.set p (some e'), ?_, ⟨e', ?_, hlen', hrow'⟩, ⟨by simp, ?_⟩, ?_, ?_⟩
  · simp only [heapStore, deref_live he, hw]
  · simp [List.getElem?_set_self hp]
  · intro q hq
    simp [List.getElem?_set_ne (Ne.symm hq)]
  · rw [hd', ← he']; exact hnew
  · intro i' j' hne
    rw [hd', deref_live he, ← he']
    exact hkeep i' j' hne

end HeapLemmas

section ObjectAllocate
variable {α : Type}

/-- The row pushed to the buffer at the last address goes to the end of it. -/
theorem pushRow_last (h : Heap α) (e : List (List α)) (row : List α) :
    pushRow (h ++ [some e]) h.length row = h ++ [some (e ++ [row])] := by
  simp [pushRow, List.set_append]

variable [Zero α]

/-- Closed form of `Object.allocate`: a new buffer at the next address, of
`rows` rows of `columns` zeros, or without rows when the first row cannot be
allocated. -/
theorem object_allocate_eq (rows columns : Nat) (h : Heap α) :
    Object.allocate rows columns h =
      if rows ≠ 0 ∧ columns = 0 then
        (h ++ [some []], { rows := rows, columns := columns, elements := some h.length },
          some Fault.badArrayNewLength)
      else
        (h ++ [some (List.replicate rows (List.replicate columns 0))],
          { rows := rows, columns := columns, elements := some h.length }, none) := by
  by_cases hc : columns = 0
  · subst hc
    cases rows with
    | zero => rfl
    | succ n => simp [Object.allocate, forLoopKeep, loopKeepFrom, newRow]
  · have hloop := forLoopKeep_invariant rows
      (fun _ (h' : Heap α) =>
        match (newRow columns : Except Fault (List α)) with
        | Except.error f => (h', some f)
        | Except.ok row => (pushRow h' h.length row, none))
      (fun k h' => h' = h ++ [some (List.replicate k (List.replicate columns 0))])
      (h ++ [some []]) rfl
      (by
        intro k t _ ht
        refine ⟨h ++ [some (List.replicate (k + 1) (List.replicate columns 0))], ?_, rfl⟩
        simp only [newRow, if_neg hc]
        rw [ht, pushRow_last, List.replicate_succ'])
    obtain ⟨h', hrun, hrep⟩ := hloop
    simp only [Object.allocate, hrun, hrep]
    simp [hc]

/-- The object and the buffer that `Object.allocate` returns are those of
`allocate`. -/
theorem object_allocate_view (rows columns : Nat) (h : Heap α) (hd : rows = 0 ∨ 0 < columns) :
    ∃ h' o, Object.allocate rows columns h = (h', o, none) ∧
      o = { rows := rows, columns := columns, elements := some h.length } ∧
      h' = h ++ [some (List.replicate rows (List.replicate columns 0))] ∧
      (allocate rows columns : Except Fault (Matrix α)) = Except.ok (o.view h') := by
  refine ⟨_, _, ?_, rfl, rfl, ?_⟩
  · rw [object_allocate_eq, if_neg (by omega)]
  · rw [allocate_ok rows columns hd]
    simp [Object.view, deref]

end ObjectAllocate

section CopyLemmas
variable {α : Type}

/-- The pointer of a valid object, when not null, designates a live buffer. -/
theorem valid_live {o : Object} {h : Heap α} (ho : o.Valid h) (p : Nat)
    (hp : o.elements = some p) : ∃ e, h[p]? = some (some e) := by
  have hsome := ho.2 (by simp [hp])
  rw [hp] at hsome
  unfold deref at hsome
  split at hsome
  · simp at hsome
  · next q heq =>
    simp only [Option.some.injEq] at heq
    subst heq
    split at hsome
    · next e he => exact ⟨e, he⟩
    · simp at hsome

/-- An object whose matrix is well-formed and whose pointer designates a live
buffer is valid. -/
theorem valid_of_live {o : Object} {h : Heap α} (hwf : (o.view h).WellFormed)
    (hlive : ∀ p, o.elements = some p → ∃ e, h[p]? = some (some e)) : o.Valid h := by
  refine ⟨hwf, ?_⟩
  intro hsome
  cases hel : o.elements with
  | none => rw [hel] at hsome; simp at hsome
  | some p =>
    obtain ⟨e, he⟩ := hlive p hel
    simp [deref, he]

/-- The pointer of a valid object is below the next free address. -/
theorem valid_pointer_lt {o : Object} {h : Heap α} (ho : o.Valid h) :
    o.elements ≠ some h.length := by
  intro heq
  obtain ⟨e, he⟩ := valid_live ho _ heq
  rw [List.getElem?_eq_none (Nat.le_refl _)] at he
  simp at he

/-- The buffers of a free store are those it had before a buffer was
appended. -/
theorem deref_append (h : Heap α) (b : Option (List (List α))) (q : Option Nat)
    (hq : q ≠ some h.length) : deref (h ++ [b]) q = deref h q := by
  cases q with
  | none => rfl
  | some a =>
    have hne : a ≠ h.length := fun heq => hq (heq ▸ rfl)
    by_cases hlt : a < h.length
    · simp [deref, List.getElem?_append_left hlt]
    · have h1 : h[a]? = none := List.getElem?_eq_none (by omega)
      have h2 : (h ++ [b])[a]? = none :=
        List.getElem?_eq_none (by simp; omega)
      simp [deref, h1, h2]

variable [Zero α]

/-- The text common to the copy constructor and to copy-assignment, on a valid
source: it succeeds; the new object has the dimensions of the source and the
next free address; the buffers that existed are not touched; the new buffer
holds, at every position, the element of the source. -/
theorem copyFrom_spec (a : Object) (h : Heap α) (ha : a.Valid h) :
    ∃ h', Object.copyFrom a h =
        (h', { rows := a.rows, columns := a.columns, elements := some h.length }, none) ∧
      SameExcept (h ++ [some (List.replicate a.rows (List.replicate a.columns 0))])
        h.length h' ∧
      BlockSized h' h.length a.rows a.columns ∧
      ∀ i j, i < a.rows → j < a.columns →
        ∃ v, readElem (deref h a.elements) i j = Except.ok v ∧
          readElem (deref h' (some h.length)) i j = Except.ok v := by
  have hdims : a.rows = 0 ∨ 0 < a.columns := wellFormed_dims ha.1
  have hfresh := valid_pointer_lt ha
  have hfill := keepFill
    (fun s : Heap α => BlockSized s h.length a.rows a.columns ∧
      SameExcept (h ++ [some (List.replicate a.rows (List.replicate a.columns 0))])
        h.length s)
    (fun s i j => readElem (deref s (some h.length)) i j)
    a.rows a.columns
    (fun i h' =>
      forLoopKeep a.columns
        (fun j h' =>
          match readElem (deref h' a.elements) i j with
          | Except.error f => (h', some f)
          | Except.ok v => heapStore h' (some h.length) i j v) h')
    (fun i j v => readElem (deref h a.elements) i j = Except.ok v)
    (by
      intro i s hi hs
      apply keepFill_row _ _ a.columns i _ _ _ s hs
      intro j t hj ⟨htb, hts⟩
      obtain ⟨_, _, x, _, _, _, hx⟩ := wellFormed_read ha.1 hi hj
      have hx' : readElem (deref h a.elements) i j = Except.ok x := hx
      have hread : readElem (deref t a.elements) i j = Except.ok x := by
        rw [deref_sameExcept hts a.elements hfresh, deref_append h _ a.elements hfresh]
        exact hx'
      obtain ⟨t', hrun, htb', hts', hnew, hkeep⟩ :=
        heapStore_block t h.length a.rows a.columns i j x htb hi hj
      refine ⟨t', ?_, ⟨htb', sameExcept_trans hts hts'⟩, ⟨x, hnew, hx'⟩, hkeep⟩
      simp only [hread]
      exact hrun)
    (h ++ [some (List.replicate a.rows (List.replicate a.columns 0))])
    ⟨⟨List.replicate a.rows (List.replicate a.columns 0), by simp, by simp, by
        intro row hrow
        rw [List.eq_of_mem_replicate hrow]; simp⟩,
      sameExcept_refl _ _⟩
  obtain ⟨h', hrun, ⟨hb, hs⟩, hcells⟩ := hfill
  refine ⟨h', ?_, hs, hb, ?_⟩
  · simp only [Object.copyFrom, object_allocate_eq, if_neg (show ¬ (a.rows ≠ 0 ∧ a.columns = 0) by omega), hrun]
  · intro i j hi hj
    obtain ⟨v, hv, hval⟩ := hcells i j hi hj
    exact ⟨v, hval, hv⟩

end CopyLemmas

section LifecycleLemmas
variable {α : Type}

/-- An object whose buffer two free stores agree on is the same matrix in
both. -/
theorem view_congr (a : Object) (h h' : Heap α)
    (hsame : deref h' a.elements = deref h a.elements) : a.view h' = a.view h := by
  simp [Object.view, hsame]

/-- `free` on a valid object succeeds, leaves it empty, releases its buffer and
touches no other buffer. -/
theorem free_valid (o : Object) (h : Heap α) (ho : o.Valid h) :
    ∃ h', o.free h = (h', { rows := 0, columns := 0, elements := none }, none) ∧
      h'.length = h.length ∧
      (∀ q, o.elements ≠ some q → h'[q]? = h[q]?) ∧
      (∀ p, o.elements = some p → h'[p]? = some none) := by
  have hwf := ho.1
  have hlive := valid_live ho
  cases hel : o.elements with
  | none =>
    have hr : o.rows = 0 := by
      have := hwf
      simp only [Matrix.WellFormed, Object.view, hel, deref] at this
      exact this.1
    refine ⟨h, ?_, rfl, fun _ _ => rfl, fun p hp => by simp at hp⟩
    simp [Object.free, hel, hr]
  | some p =>
    obtain ⟨e, he⟩ := hlive p hel
    have hp : p < h.length := by
      by_contra hge
      rw [List.getElem?_eq_none (by omega)] at he
      simp at he
    have hr : o.rows = e.length := by
      have := hwf
      simp only [Matrix.WellFormed, Object.view, hel, deref, he] at this
      exact this.1.symm
    refine ⟨h.set p none, ?_, by simp, ?_, ?_⟩
    · simp [Object.free, hel, he, hr]
    · intro q hq
      have hne : p ≠ q := fun heq => hq (heq ▸ rfl)
      simp [List.getElem?_set_ne hne]
    · intro p' hp'
      simp only [Option.some.injEq] at hp'
      subst hp'
      simp [List.getElem?_set_self hp]

/-- An object that owns another buffer than the one released, or none, is valid
after the release and is the matrix it was. -/
theorem valid_after_free (a : Object) (h h' : Heap α) (ha : a.Valid h)
    (hsame : ∀ q, a.elements = some q → h'[q]? = h[q]?) :
    a.Valid h' ∧ a.view h' = a.view h := by
  have hd : deref h' a.elements = deref h a.elements := by
    cases hel : a.elements with
    | none => rfl
    | some q => simp [deref, hsame q hel]
  have hv := view_congr a h h' hd
  refine ⟨valid_of_live (hv ▸ ha.1) ?_, hv⟩
  intro p hp
  obtain ⟨e, he⟩ := valid_live ha p hp
  exact ⟨e, (hsame p hp).trans he⟩

/-- Move-assignment to a valid object from a distinct object that does not
share its buffer: the destination is left with the data members of the source,
the source empty; the buffer of the destination is released and the buffer of
the source is not touched. -/
theorem moveAssign_spec (a b : Object) (h : Heap α) (hb : b.Valid h)
    (hd : b.elements = none ∨ b.elements ≠ a.elements) :
    ∃ h', b.moveAssign a h = (h', (a, { rows := 0, columns := 0, elements := none }), none) ∧
      a.view h' = a.view h ∧ h'.length = h.length ∧
      (∀ q, b.elements ≠ some q → h'[q]? = h[q]?) ∧
      (∀ p, b.elements = some p → h'[p]? = some none) := by
  obtain ⟨h', hfree, hlen, hkeep, hrel⟩ := free_valid b h hb
  refine ⟨h', ?_, ?_, hlen, hkeep, hrel⟩
  · simp only [Object.moveAssign, hfree]
  · apply view_congr
    cases hel : a.elements with
    | none => rfl
    | some q =>
      have hne : b.elements ≠ some q := by
        rcases hd with hnone | hne
        · rw [hnone]; simp
        · rw [hel] at hne; exact hne
      simp [deref, hkeep q hne]

variable [Zero α]

/-- The text common to the copy constructor and to copy-assignment makes, of a
valid source, a copy that shares nothing with it. -/
theorem copyFrom_independent (a : Object) (h : Heap α) (ha : a.Valid h) :
    ∃ h' c, Object.copyFrom a h = (h', c, none) ∧ IsIndependentCopy a h c h' := by
  obtain ⟨h', hrun, hs, hb, hcells⟩ := copyFrom_spec a h ha
  have hdims : a.rows = 0 ∨ 0 < a.columns := wellFormed_dims ha.1
  have hfresh := valid_pointer_lt ha
  have hview : ∀ h'' : Heap α, SameExcept h' h.length h'' → a.view h'' = a.view h := by
    intro h'' hs'
    apply view_congr
    rw [deref_sameExcept (sameExcept_trans hs hs') a.elements hfresh,
      deref_append h _ a.elements hfresh]
  obtain ⟨e, he, hlen, hrow⟩ := hb
  refine ⟨h', _, hrun, rfl, rfl, ?_, hview h' (sameExcept_refl _ _),
    valid_of_live ?_ ?_, ?_⟩
  · intro i j hi hj
    exact hcells i j hi hj
  · exact sized_wellFormed ⟨rfl, rfl, e, deref_live he, hlen, hrow⟩ hdims
  · intro p hp
    simp only [Option.some.injEq] at hp
    subst hp
    exact ⟨e, he⟩
  · intro r k v hr hk
    have hr' : r < a.rows := hr
    have hk' : k < a.columns := hk
    obtain ⟨h'', hstore, _, hs', hnew, hkeep⟩ :=
      heapStore_block h' h.length a.rows a.columns r k v ⟨e, he, hlen, hrow⟩ hr' hk'
    refine ⟨h'', ?_, hnew, hkeep, hview h'' hs'⟩
    have hguard : ¬ (r ≥ a.rows ∨ k ≥ a.columns) := by omega
    simp only [Object.atAssign, if_neg hguard]
    exact hstore

/-- Copy-assignment to a valid object from a distinct valid object that does
not share its buffer makes a copy that shares nothing with the source. -/
theorem copyAssign_independent (a b : Object) (h : Heap α) (ha : a.Valid h)
    (hb : b.Valid h) (hd : b.elements = none ∨ b.elements ≠ a.elements) :
    ∃ h' c, Object.copyAssign false b a h = (h', c, none) ∧ IsIndependentCopy a h c h' := by
  obtain ⟨h1, hfree, _, hkeep, _⟩ := free_valid b h hb
  have ha1 := valid_after_free a h h1 ha (by
    intro q hq
    apply hkeep
    rcases hd with hnone | hne
    · rw [hnone]; simp
    · rw [hq] at hne; exact hne)
  obtain ⟨h', c, hrun, hc1, hc2, hc3, hc4, hc5, hc6⟩ := copyFrom_independent a h1 ha1.1
  refine ⟨h', c, ?_, hc1, hc2, ?_, hc4.trans ha1.2, hc5, ?_⟩
  · simp only [Object.copyAssign, hfree]
    exact hrun
  · intro i j hi hj
    rw [← ha1.2]
    exact hc3 i j hi hj
  · intro r k v hr hk
    obtain ⟨h'', h1', h2', h3', h4'⟩ := hc6 r k v hr hk
    exact ⟨h'', h1', h2', h3', h4'.trans ha1.2⟩

end LifecycleLemmas

section Preservation
variable {σ : Type}

/-- A property that every successful iteration keeps holds of the state that a
successful loop returns. -/
theorem loopFrom_ok_preserves (body : Nat → σ → Except Fault σ) (P : σ → Prop)
    (hbody : ∀ k t t', P t → body k t = Except.ok t' → P t') :
    ∀ (count i : Nat) (s s' : σ), P s → loopFrom body count i s = Except.ok s' → P s' := by
  intro count
  induction count with
  | zero =>
    intro i s s' h hrun
    simp only [loopFrom, Except.ok.injEq] at hrun
    exact hrun ▸ h
  | succ n ih =>
    intro i s s' h hrun
    simp only [loopFrom] at hrun
    cases hb : body i s with
    | error g => rw [hb] at hrun; simp at hrun
    | ok t =>
      rw [hb] at hrun
      exact ih (i + 1) t s' (hbody i s t h hb) hrun

/-- The rule `loopFrom_ok_preserves` for `forLoop`. -/
theorem forLoop_ok_preserves (n : Nat) (body : Nat → σ → Except Fault σ) (P : σ → Prop)
    (hbody : ∀ k t t', P t → body k t = Except.ok t' → P t') (s s' : σ) (h : P s)
    (hrun : forLoop n body s = Except.ok s') : P s' :=
  loopFrom_ok_preserves body P hbody n 0 s s' h hrun

variable {α : Type}

/-- A store that succeeds keeps the shape of the matrix. -/
theorem store_ok_sized {m m' : Matrix α} {r c i j : Nat} {v : α} (hm : m.Sized r c)
    (h : m.store i j v = Except.ok m') : m'.Sized r c := by
  obtain ⟨hr, hc, e, he, hlen, hrow⟩ := hm
  have hi : i < r := by
    by_contra hge
    have hnone : e[i]? = none := List.getElem?_eq_none (by omega)
    simp [Matrix.store, writeElem, he, hnone] at h
  have hi' : i < e.length := by omega
  have hj : j < c := by
    by_contra hge
    have hl : (e[i]).length = c := hrow _ (List.getElem_mem hi')
    have hnot : ¬ j < (e[i]).length := by omega
    simp [Matrix.store, writeElem, he, List.getElem?_eq_getElem hi', hnot] at h
  obtain ⟨m'', hrun, hs, _, _⟩ := sized_store v ⟨hr, hc, e, he, hlen, hrow⟩ hi hj
  rw [hrun] at h
  simp only [Except.ok.injEq] at h
  exact h ▸ hs

/-- A matrix of a shape has a buffer. -/
theorem sized_allocated {m : Matrix α} {r c : Nat} (hm : m.Sized r c) :
    m.elements ≠ none := by
  obtain ⟨_, _, e, he, _, _⟩ := hm
  simp [he]

/-- A loop nest whose body, when it succeeds, keeps the shape of the matrix
returns, when it succeeds, a matrix of that shape. -/
theorem nest_ok_sized (r c n : Nat) (bound : Matrix α → Nat)
    (cellBody : Nat → Nat → Matrix α → Except Fault (Matrix α))
    (hcell : ∀ i j m m', m.Sized r c → cellBody i j m = Except.ok m' → m'.Sized r c)
    (m m' : Matrix α) (hm : m.Sized r c)
    (h : forLoop n (fun i t => forLoop (bound t) (fun j u => cellBody i j u) t) m =
      Except.ok m') : m'.Sized r c := by
  refine forLoop_ok_preserves n _ (fun t => t.Sized r c) ?_ m m' hm h
  intro i t t' ht hrun
  exact forLoop_ok_preserves (bound t) _ (fun u => u.Sized r c)
    (fun j u u' hu hj => hcell i j u u' hu hj) t t' ht hrun

variable [Zero α]

/-- A matrix that an elementwise operator returns is well-formed and has a buffer. -/
theorem elementwise_ok_result (op : α → α → α) (a b R : Matrix α)
    (h : elementwise op a b = Except.ok R) : R.WellFormed ∧ R.elements ≠ none := by
  unfold elementwise at h
  split at h
  · simp at h
  · split at h
    · simp at h
    · next m0 hm0 =>
      have hwf := allocate_wellFormed _ _ _ hm0
      have hs := allocate_sized _ _ _ hm0
      have hR := nest_ok_sized a.rows a.columns a.rows (fun _ => a.columns)
        (fun i j result =>
          match readElem a.elements i j with
          | Except.error f => Except.error f
          | Except.ok x =>
            match readElem b.elements i j with
            | Except.error f => Except.error f
            | Except.ok y => result.store i j (op x y))
        (by
          intro i j m m' hm hrun
          dsimp only at hrun
          split at hrun
          · simp at hrun
          · split at hrun
            · simp at hrun
            · exact store_ok_sized hm hrun)
        m0 R hs h
      have hd := wellFormed_dims hwf
      rw [hs.1, hs.2.1] at hd
      exact ⟨sized_wellFormed hR hd, sized_allocated hR⟩

/-- A matrix that a scalar operator returns is well-formed and has a buffer. -/
theorem scalarwise_ok_result (op : α → α) (a R : Matrix α)
    (h : scalarwise op a = Except.ok R) : R.WellFormed ∧ R.elements ≠ none := by
  unfold scalarwise at h
  split at h
  · simp at h
  · next m0 hm0 =>
    have hwf := allocate_wellFormed _ _ _ hm0
    have hs := allocate_sized _ _ _ hm0
    have hR := nest_ok_sized a.rows a.columns a.rows (fun _ => a.columns)
      (fun i j result =>
        match readElem a.elements i j with
        | Except.error f => Except.error f
        | Except.ok x => result.store i j (op x))
      (by
        intro i j m m' hm hrun
        dsimp only at hrun
        split at hrun
        · simp at hrun
        · exact store_ok_sized hm hrun)
      m0 R hs h
    have hd := wellFormed_dims hwf
    rw [hs.1, hs.2.1] at hd
    exact ⟨sized_wellFormed hR hd, sized_allocated hR⟩

/-- A matrix that `transpose` returns is well-formed and has a buffer. -/
theorem transpose_ok_result (a R : Matrix α) (h : a.transpose = Except.ok R) :
    R.WellFormed ∧ R.elements ≠ none := by
  unfold Matrix.transpose at h
  split at h
  · simp at h
  · next m0 hm0 =>
    have hwf := allocate_wellFormed _ _ _ hm0
    have hs := allocate_sized _ _ _ hm0
    have hR := nest_ok_sized a.columns a.rows m0.rows (fun t => t.columns)
      (fun i j result =>
        match readElem a.elements j i with
        | Except.error f => Except.error f
        | Except.ok v => result.store i j v)
      (by
        intro i j m m' hm hrun
        dsimp only at hrun
        split at hrun
        · simp at hrun
        · exact store_ok_sized hm hrun)
      m0 R hs h
    have hd := wellFormed_dims hwf
    rw [hs.1, hs.2.1] at hd
    exact ⟨sized_wellFormed hR hd, sized_allocated hR⟩

/-- A matrix that `dot` returns is well-formed and has a buffer. -/
theorem dot_ok_result [Add α] [Mul α] (a b R : Matrix α)
    (h : a.dot b = Except.ok R) : R.WellFormed ∧ R.elements ≠ none := by
  unfold Matrix.dot at h
  split at h
  · simp at h
  · split at h
    · simp at h
    · next m0 hm0 =>
      have hwf := allocate_wellFormed _ _ _ hm0
      have hs := allocate_sized _ _ _ hm0
      have hR := nest_ok_sized a.rows b.columns m0.rows (fun t => t.columns)
        (fun i j result => dotCell a b i j result)
        (by
          intro i j m m' hm hrun
          unfold dotCell at hrun
          dsimp only at hrun
          split at hrun
          · simp at hrun
          · next m1 hm1 =>
            refine forLoop_ok_preserves _ _ (fun t => t.Sized a.rows b.columns) ?_ m1 m'
              (store_ok_sized hm hm1) hrun
            intro k t t' ht hstep
            unfold dotStep at hstep
            split at hstep
            · simp at hstep
            · split at hstep
              · simp at hstep
              · split at hstep
                · simp at hstep
                · exact store_ok_sized ht hstep)
        m0 R hs h
      have hd := wellFormed_dims hwf
      rw [hs.1, hs.2.1] at hd
      exact ⟨sized_wellFormed hR hd, sized_allocated hR⟩

/-- A matrix that the literal-list constructor returns is well-formed and has a buffer. -/
theorem ofLiteral_ok_result (list : List (List α)) (R : Matrix α)
    (h : Matrix.ofLiteral list = Except.ok R) : R.WellFormed ∧ R.elements ≠ none := by
  unfold Matrix.ofLiteral at h
  split at h
  · simp at h
  · next first rest =>
    simp only at h
    split at h
    · simp at h
    · next m0 hm0 =>
      have hwf := allocate_wellFormed _ _ _ hm0
      have hs := allocate_sized _ _ _ hm0
      have hR : R.Sized (toUnsigned (first :: rest).length) (toUnsigned first.length) := by
        refine forLoop_ok_preserves _ _
          (fun t => t.Sized (toUnsigned (first :: rest).length) (toUnsigned first.length))
          ?_ m0 R hs h
        intro i t t' ht hrun
        unfold literalRow at hrun
        split at hrun
        · simp at hrun
        · split at hrun
          · simp at hrun
          · refine forLoop_ok_preserves _ _
              (fun u => u.Sized (toUnsigned (first :: rest).length)
                (toUnsigned first.length)) ?_ t t' ht hrun
            intro j u u' hu hstep
            split at hstep
            · simp at hstep
            · exact store_ok_sized hu hstep
      have hd := wellFormed_dims hwf
      rw [hs.1, hs.2.1] at hd
      exact ⟨sized_wellFormed hR hd, sized_allocated hR⟩

/-- A matrix that the sized constructor returns is well-formed and has a
buffer. -/
theorem sized_ok_result (r c : Nat) (R : Matrix α) (h : Matrix.sized r c = Except.ok R) :
    R.WellFormed ∧ R.elements ≠ none :=
  ⟨allocate_wellFormed r c R h, sized_allocated (allocate_sized r c R h)⟩

end Preservation

section LeakLemmas
variable {α : Type}

/-- The live allocations are those of the buffers. -/
theorem liveAllocations_eq_sum (h : Heap α) :
    liveAllocations h = (h.map blockAllocations).sum := by
  induction h with
  | nil => rfl
  | cons b t ih =>
    cases b with
    | none => simp [liveAllocations, blockAllocations, ih]
    | some e => simp [liveAllocations, blockAllocations, ih]

/-- A new buffer adds its row-pointer array and its rows to the live
allocations. -/
theorem liveAllocations_append (h : Heap α) (e : List (List α)) :
    liveAllocations (h ++ [some e]) = liveAllocations h + 1 + e.length := by
  simp [liveAllocations_eq_sum, blockAllocations]; omega

/-- Two free stores that differ only by the contents of a buffer with the same
number of rows have the same live allocations. -/
theorem liveAllocations_sameExcept {h0 h : Heap α} {p r c c' : Nat}
    (hs : SameExcept h0 p h) (hb0 : BlockSized h0 p r c) (hb : BlockSized h p r c') :
    liveAllocations h = liveAllocations h0 := by
  rw [liveAllocations_eq_sum, liveAllocations_eq_sum]
  congr 1
  apply List.ext_getElem?
  intro q
  simp only [List.getElem?_map]
  by_cases hq : q = p
  · subst hq
    obtain ⟨e0, he0, hl0, _⟩ := hb0
    obtain ⟨e, he, hl, _⟩ := hb
    simp [he0, he, blockAllocations, hl0, hl]
  · rw [hs.2 q hq]

/-- An assignment through a pointer to a live buffer, whether it succeeds or
faults, keeps the shape of the buffer and touches no other buffer. -/
theorem heapStore_keeps (h : Heap α) (p r c i j : Nat) (v : α)
    (hb : BlockSized h p r c) :
    BlockSized (heapStore h (some p) i j v).1 p r c ∧
      SameExcept h p (heapStore h (some p) i j v).1 := by
  by_cases hin : i < r ∧ j < c
  · obtain ⟨h', hrun, hb', hs', _, _⟩ := heapStore_block h p r c i j v hb hin.1 hin.2
    rw [hrun]
    exact ⟨hb', hs'⟩
  · have hfault : (heapStore h (some p) i j v).1 = h := by
      obtain ⟨e, he, hlen, hrow⟩ := hb
      simp only [heapStore, deref_live he]
      cases hw : writeElem (some e) i j v with
      | error f => rfl
      | ok el =>
        exfalso
        have hm : ({ rows := r, columns := c, elements := some e } : Matrix α).Sized r c :=
          ⟨rfl, rfl, e, rfl, hlen, hrow⟩
        simp only [writeElem] at hw
        split at hw
        · simp at hw
        · next row hrow' =>
          split at hw
          · next hj =>
            have hi : i < e.length := by
              by_contra hge
              rw [List.getElem?_eq_none (by omega)] at hrow'
              simp at hrow'
            have hmem : row ∈ e := List.getElem?_mem hrow'
            have := hrow row hmem
            omega
          · simp at hw
    rw [hfault]
    exact ⟨hb, sameExcept_refl h p⟩

variable [Zero α]

/-- When the literal-list constructor ends with `std::invalid_argument`, the
buffer that it allocated is live in the free store it leaves, with all its
rows, and the live allocations have grown by the row-pointer array and one row
array for each row of the literal. -/
theorem object_ofLiteral_leaks (first : List α) (rest : List (List α)) (h h' : Heap α)
    (o : Object)
    (hrun : Object.ofLiteral (first :: rest) h = (h', o, some Fault.invalidArgument)) :
    BlockSized h' h.length (toUnsigned (first :: rest).length) (toUnsigned first.length) ∧
      liveAllocations h' =
        liveAllocations h + 1 + toUnsigned (first :: rest).length := by
  by_cases hbad : toUnsigned (first :: rest).length ≠ 0 ∧ toUnsigned first.length = 0
  · simp only [Object.ofLiteral, object_allocate_eq, if_pos hbad] at hrun
    simp at hrun
  · simp only [Object.ofLiteral, object_allocate_eq, if_neg hbad] at hrun
    have hb1 : BlockSized
        (h ++ [some (List.replicate (toUnsigned (first :: rest).length)
          (List.replicate (toUnsigned first.length) (0 : α)))])
        h.length (toUnsigned (first :: rest).length) (toUnsigned first.length) :=
      ⟨List.replicate (toUnsigned (first :: rest).length)
          (List.replicate (toUnsigned first.length) (0 : α)), by simp, by simp, by
        intro row hrow
        rw [List.eq_of_mem_replicate hrow]; simp⟩
    have hkeep := forLoopKeep_preserves (toUnsigned (first :: rest).length)
      (fun i (h' : Heap α) =>
        match (first :: rest)[i]? with
        | none => (h', some Fault.undefinedBehaviour)
        | some src =>
          if src.length ≠ toUnsigned first.length then (h', some Fault.invalidArgument)
          else
            forLoopKeep (toUnsigned first.length)
              (fun j h' =>
                match src[j]? with
                | none => (h', some Fault.undefinedBehaviour)
                | some v => heapStore h' (some h.length) i j v) h')
      (fun s => BlockSized s h.length (toUnsigned (first :: rest).length)
          (toUnsigned first.length) ∧
        SameExcept (h ++ [some (List.replicate (toUnsigned (first :: rest).length)
          (List.replicate (toUnsigned first.length) (0 : α)))]) h.length s)
      (by
        intro i s hs
        dsimp only
        split
        · exact hs
        · split
          · exact hs
          · refine forLoopKeep_preserves _ _
              (fun s => BlockSized s h.length (toUnsigned (first :: rest).length)
                  (toUnsigned first.length) ∧
                SameExcept (h ++ [some (List.replicate (toUnsigned (first :: rest).length)
                  (List.replicate (toUnsigned first.length) (0 : α)))]) h.length s)
              ?_ s hs
            intro j t ht
            dsimp only
            split
            · exact ht
            · next v _ =>
              have := heapStore_keeps t h.length _ _ i j v ht.1
              exact ⟨this.1, sameExcept_trans ht.2 this.2⟩)
      _ ⟨hb1, sameExcept_refl _ _⟩
    simp only [Prod.mk.injEq] at hrun
    rw [hrun.1] at hkeep
    refine ⟨hkeep.1, ?_⟩
    rw [liveAllocations_sameExcept hkeep.2 hb1 hkeep.1, liveAllocations_append]
    simp

end LeakLemmas

section Simulation
variable {τ σ : Type}

/-- Two loops whose bodies, from related states, either both succeed and reach
related states or both end with the same fault, do so themselves. -/
theorem loopFrom_simulates (R : τ → σ → Prop) (bodyK : Nat → τ → τ × Option Fault)
    (body : Nat → σ → Except Fault σ)
    (hsim : ∀ k t s, R t s →
      (∃ t' s', bodyK k t = (t', none) ∧ body k s = Except.ok s' ∧ R t' s') ∨
      (∃ t' f, bodyK k t = (t', some f) ∧ body k s = Except.error f)) :
    ∀ (count i : Nat) (t : τ) (s : σ), R t s →
      (∃ t' s', loopKeepFrom bodyK count i t = (t', none) ∧
        loopFrom body count i s = Except.ok s' ∧ R t' s') ∨
      (∃ t' f, loopKeepFrom bodyK count i t = (t', some f) ∧
        loopFrom body count i s = Except.error f) := by
  intro count
  induction count with
  | zero => intro i t s h; exact Or.inl ⟨t, s, rfl, rfl, h⟩
  | succ n ih =>
    intro i t s h
    rcases hsim i t s h with ⟨t', s', hk, hb, hR⟩ | ⟨t', f, hk, hb⟩
    · rcases ih (i + 1) t' s' hR with ⟨t'', s'', hk', hb', hR'⟩ | ⟨t'', f, hk', hb'⟩
      · exact Or.inl ⟨t'', s'', by simp only [loopKeepFrom, hk, hk'],
          by simp only [loopFrom, hb, hb'], hR'⟩
      · exact Or.inr ⟨t'', f, by simp only [loopKeepFrom, hk, hk'],
          by simp only [loopFrom, hb, hb']⟩
    · exact Or.inr ⟨t', f, by simp only [loopKeepFrom, hk], by simp only [loopFrom, hb]⟩

/-- The rule `loopFrom_simulates` for `forLoopKeep` and `forLoop`. -/
theorem forLoop_simulates (R : τ → σ → Prop) (n : Nat)
    (bodyK : Nat → τ → τ × Option Fault) (body : Nat → σ → Except Fault σ)
    (hsim : ∀ k t s, R t s →
      (∃ t' s', bodyK k t = (t', none) ∧ body k s = Except.ok s' ∧ R t' s') ∨
      (∃ t' f, bodyK k t = (t', some f) ∧ body k s = Except.error f))
    (t : τ) (s : σ) (h : R t s) :
    (∃ t' s', forLoopKeep n bodyK t = (t', none) ∧
      forLoop n body s = Except.ok s' ∧ R t' s') ∨
    (∃ t' f, forLoopKeep n bodyK t = (t', some f) ∧
      forLoop n body s = Except.error f) :=
  loopFrom_simulates R bodyK body hsim n 0 t s h

variable {α : Type}

/-- An assignment through the pointer of an object does to the free store what
`store` does to the matrix that the object is. -/
theorem heapStore_simulates (self : Object) (p : Nat) (hp : self.elements = some p)
    (t : Heap α) (i j : Nat) (v : α) :
    (∃ t', heapStore t self.elements i j v = (t', none) ∧
      (self.view t).store i j v = Except.ok (self.view t')) ∨
    (∃ t' f, heapStore t self.elements i j v = (t', some f) ∧
      (self.view t).store i j v = Except.error f) := by
  rw [hp]
  cases hw : writeElem (deref t (some p)) i j v with
  | error f =>
    right
    refine ⟨t, f, by simp only [heapStore, hw], ?_⟩
    simp only [Matrix.store, Object.view, hp, hw]
  | ok el =>
    left
    refine ⟨t.set p el, by simp only [heapStore, hw], ?_⟩
    have hd : deref (t.set p el) (some p) = el := by
      cases hdt : deref t (some p) with
      | none => rw [hdt] at hw; simp [writeElem] at hw
      | some e =>
        have hlt : p < t.length := by
          by_contra hge
          have : t[p]? = none := List.getElem?_eq_none (by omega)
          simp [deref, this] at hdt
        rw [hdt] at hw
        simp only [writeElem] at hw
        split at hw
        · simp at hw
        · split at hw
          · simp only [Except.ok.injEq] at hw
            rw [← hw]
            simp [deref, List.getElem?_set_self hlt]
          · simp at hw
    simp only [Matrix.store, Object.view, hp, hw, hd]

variable [Zero α]

/-- The literal-list constructor on the free store and the literal-list
constructor on matrices end alike: both succeed, and the object built is the
matrix built, or both end with the same fault. -/
theorem object_ofLiteral_outcome (list : List (List α)) (h : Heap α) :
    (∃ h' o, Object.ofLiteral list h = (h', o, none) ∧
      Matrix.ofLiteral list = Except.ok (o.view h')) ∨
    (∃ h' o f, Object.ofLiteral list h = (h', o, some f) ∧
      Matrix.ofLiteral list = Except.error f) := by
  cases list with
  | nil => exact Or.inr ⟨_, _, _, rfl, rfl⟩
  | cons first rest =>
    by_cases hbad : toUnsigned (first :: rest).length ≠ 0 ∧ toUnsigned first.length = 0
    · right
      refine ⟨h ++ [some []],
        (⟨toUnsigned (first :: rest).length, toUnsigned first.length,
          some h.length⟩ : Object), Fault.badArrayNewLength, ?_, ?_⟩
      · simp only [Object.ofLiteral, object_allocate_eq, if_pos hbad]
      · simp only [Matrix.ofLiteral, allocate_eq, if_pos hbad]
    · have hsim := forLoop_simulates
        (fun (t : Heap α) (s : Matrix α) =>
          s = ({ rows := toUnsigned (first :: rest).length,
                 columns := toUnsigned first.length,
                 elements := some h.length } : Object).view t)
        (toUnsigned (first :: rest).length)
        (fun i h' =>
          match (first :: rest)[i]? with
          | none => (h', some Fault.undefinedBehaviour)
          | some src =>
            if src.length ≠ toUnsigned first.length then (h', some Fault.invalidArgument)
            else
              forLoopKeep (toUnsigned first.length)
                (fun j h' =>
                  match src[j]? with
                  | none => (h', some Fault.undefinedBehaviour)
                  | some v => heapStore h' (some h.length) i j v) h')
        (literalRow (first :: rest) (toUnsigned first.length))
        (by
          intro i t s hts
          subst hts
          unfold literalRow
          dsimp only
          cases (first :: rest)[i]? with
          | none => exact Or.inr ⟨t, _, rfl, rfl⟩
          | some src =>
            dsimp only
            by_cases hlen : src.length ≠ toUnsigned first.length
            · rw [if_pos hlen, if_pos hlen]
              exact Or.inr ⟨t, _, rfl, rfl⟩
            · rw [if_neg hlen, if_neg hlen]
              apply forLoop_simulates
                (fun (t : Heap α) (s : Matrix α) =>
                  s = ({ rows := toUnsigned (first :: rest).length,
                         columns := toUnsigned first.length,
                         elements := some h.length } : Object).view t)
              · intro j u s hus
                subst hus
                cases src[j]? with
                | none => exact Or.inr ⟨u, _, rfl, rfl⟩
                | some v =>
                  dsimp only
                  rcases heapStore_simulates
                    ({ rows := toUnsigned (first :: rest).length,
                       columns := toUnsigned first.length,
                       elements := some h.length } : Object) h.length rfl u i j v with
                    ⟨u', h1, h2⟩ | ⟨u', f, h1, h2⟩
                  · exact Or.inl ⟨u', _, h1, h2, rfl⟩
                  · exact Or.inr ⟨u', f, h1, h2⟩
              · rfl)
        (h ++ [some (List.replicate (toUnsigned (first :: rest).length)
          (List.replicate (toUnsigned first.length) 0))])
        { rows := toUnsigned (first :: rest).length, columns := toUnsigned first.length,
          elements := some (List.replicate (toUnsigned (first :: rest).length)
            (List.replicate (toUnsigned first.length) 0)) }
        (by simp [Object.view, deref])
      rcases hsim with ⟨t', s', hk, hb, hR⟩ | ⟨t', f, hk, hb⟩
      · left
        refine ⟨t', (⟨toUnsigned (first :: rest).length, toUnsigned first.length,
          some h.length⟩ : Object), ?_, ?_⟩
        · simp only [Object.ofLiteral, object_allocate_eq, if_neg hbad, hk]
        · simp only [Matrix.ofLiteral, allocate_eq, if_neg hbad, hb, hR]
      · right
        refine ⟨t', (⟨toUnsigned (first :: rest).length, toUnsigned first.length,
          some h.length⟩ : Object), f, ?_, ?_⟩
        · simp only [Object.ofLiteral, object_allocate_eq, if_neg hbad, hk]
        · simp only [Matrix.ofLiteral, allocate_eq, if_neg hbad, hb]

end Simulation

section EmptyObject
variable {α : Type}

/-- The empty object, with no rows, no columns and a null pointer, is valid in
every free store. -/
theorem empty_object_valid (h : Heap α) :
    ({ rows := 0, columns := 0, elements := none } : Object).Valid h := by
  refine ⟨?_, by simp⟩
  simp [Object.view, deref, Matrix.WellFormed]

end EmptyObject

/-! ## The claims -/

section Claims
variable {α : Type}

/-- Claim C1, at the input of its concrete instance.  The 2 by 3 matrix
`sampleLeft` and the 3 by 2 matrix `sampleRight` are what the literal-list
constructor builds from their literals; `dot` returns a 2 by 2 matrix, but its
element `(i, j)` is the sum of the products for `k = 0, 1` only, the loop over
`k` running below the column count of the right operand: `[[25, 28], [73, 82]]`,
whereas the sums over the whole inner dimension `k = 0, 1, 2` are
`[[58, 64], [139, 154]]`. -/
theorem dot_sample_stops_short_of_inner_dimension :
    Matrix.ofLiteral [[1, 2, 3], [4, 5, 6]] = Except.ok sampleLeft ∧
    Matrix.ofLiteral [[7, 8], [9, 10], [11, 12]] = Except.ok sampleRight ∧
    sampleLeft.columns = sampleRight.rows ∧
    sampleLeft.dot sampleRight =
      Except.ok { rows := 2, columns := 2, elements := some [[25, 28], [73, 82]] } ∧
    productSum sampleLeft sampleRight 0 0 sampleLeft.columns = 58 ∧
    productSum sampleLeft sampleRight 0 1 sampleLeft.columns = 64 ∧
    productSum sampleLeft sampleRight 1 0 sampleLeft.columns = 139 ∧
    productSum sampleLeft sampleRight 1 1 sampleLeft.columns = 154 := by
  decide

/-- Claim C2.  For all matrices `a` and `b`, `a.dot(b)` ends with
`std::invalid_argument` (DimensionMismatch) if and only if the column count of
`a` differs from the row count of `b`. -/
theorem dot_invalid_argument_iff [Zero α] [Add α] [Mul α] (a b : Matrix α) :
    a.dot b = Except.error Fault.invalidArgument ↔ a.columnSize ≠ b.rowSize := by
  constructor
  · intro h hpass
    exact dot_fault a b _ hpass h rfl
  · intro h
    have h' : a.columns ≠ b.rows := h
    unfold Matrix.dot
    rw [if_pos h']

/-- Claim C3.  For well-formed matrices `a` and `b` whose inner dimensions
agree and one of whose dimensions `a.rows`, `a.columns`, `b.columns` is zero,
`a.dot(b)` returns, with no fault, a well-formed matrix of dimensions
`(a.rows, b.columns)` that is empty: it has no row.  (In a well-formed matrix a
row has at least one element, so each of the three cases gives `a.rows = 0`.) -/
theorem dot_zero_dimension [Zero α] [Add α] [Mul α] (a b : Matrix α)
    (ha : a.WellFormed) (hb : b.WellFormed) (hpass : a.columns = b.rows)
    (hzero : a.rows = 0 ∨ a.columns = 0 ∨ b.columns = 0) :
    ∃ R, a.dot b = Except.ok R ∧ R.WellFormed ∧
      R.rowSize = a.rowSize ∧ R.columnSize = b.columnSize ∧ R.elements = some [] := by
  have h0 : a.rows = 0 := by
    have hda := wellFormed_dims ha
    have hdb := wellFormed_dims hb
    omega
  refine ⟨_, dot_no_rows a b hpass h0, ?_, rfl, rfl, rfl⟩
  exact sized_wellFormed ⟨rfl, rfl, [], rfl, by simpa using h0.symm, by simp⟩ (Or.inl h0)

/-- Witness of `dot_zero_dimension`: a matrix with no rows and three columns
times the 3 by 2 matrix `sampleRight`. -/
theorem dot_zero_dimension_witness :
    (∃ R, ({ rows := 0, columns := 3, elements := some [] } : Matrix Int).dot sampleRight
        = Except.ok R ∧ R.WellFormed ∧
      R.rowSize = 0 ∧ R.columnSize = sampleRight.columnSize ∧ R.elements = some []) :=
  dot_zero_dimension { rows := 0, columns := 3, elements := some [] } sampleRight
    (by decide) (by decide) rfl (Or.inl rfl)

/-- Claim C4, at a 2 by 3 and a 3 by 3 operand.  `sampleLeft` and
`sampleSquare` are well-formed and their row counts differ, 2 and 3; the guard
of the operators lets them pass all the same, the column count of the one
being the row count of the other, and each of `*`, `+`, `-` returns a 2 by 3
matrix instead of ending with `std::invalid_argument`. -/
theorem elementwise_accepts_row_mismatch :
    sampleLeft.WellFormed ∧ sampleSquare.WellFormed ∧
    sampleLeft.rows ≠ sampleSquare.rows ∧
    sampleLeft.mul sampleSquare =
      Except.ok { rows := 2, columns := 3, elements := some [[1, 0, 0], [0, 5, 0]] } ∧
    sampleLeft.add sampleSquare =
      Except.ok { rows := 2, columns := 3, elements := some [[2, 2, 3], [4, 6, 6]] } ∧
    sampleLeft.sub sampleSquare =
      Except.ok { rows := 2, columns := 3, elements := some [[0, 2, 3], [4, 4, 6]] } ∧
    ¬ (sampleLeft.mul sampleSquare = Except.error Fault.invalidArgument ↔
      sampleLeft.rows ≠ sampleSquare.rows) ∧
    ¬ (sampleLeft.add sampleSquare = Except.error Fault.invalidArgument ↔
      sampleLeft.rows ≠ sampleSquare.rows) ∧
    ¬ (sampleLeft.sub sampleSquare = Except.error Fault.invalidArgument ↔
      sampleLeft.rows ≠ sampleSquare.rows) := by
  decide

/-- Claim C5.  For well-formed matrices `a` and `b` of equal dimensions, each
of `a * b`, `a + b` and `a - b` returns a well-formed matrix with the row and
column counts of the operands whose element `(i, j)` is the product, sum and
difference of the elements `(i, j)` of `a` and `b`, for all `i < rows` and
`j < columns`. -/
theorem elementwise_equal_dimensions [Zero α] [Mul α] [Add α] [Sub α]
    (a b : Matrix α) (ha : a.WellFormed) (hb : b.WellFormed)
    (hrows : a.rows = b.rows) (hcolumns : a.columns = b.columns) :
    (∃ R, a.mul b = Except.ok R ∧ R.WellFormed ∧ IsElementwise (fun x y => x * y) a b R) ∧
    (∃ R, a.add b = Except.ok R ∧ R.WellFormed ∧ IsElementwise (fun x y => x + y) a b R) ∧
    (∃ R, a.sub b = Except.ok R ∧ R.WellFormed ∧ IsElementwise (fun x y => x - y) a b R) := by
  refine ⟨?_, ?_, ?_⟩
  · obtain ⟨R, h1, h2, h3, h4, h5⟩ :=
      elementwise_spec (fun x y => x * y) a b ha hb hrows hcolumns
    exact ⟨R, h1, h2, h3, h4, h5⟩
  · obtain ⟨R, h1, h2, h3, h4, h5⟩ :=
      elementwise_spec (fun x y => x + y) a b ha hb hrows hcolumns
    exact ⟨R, h1, h2, h3, h4, h5⟩
  · obtain ⟨R, h1, h2, h3, h4, h5⟩ :=
      elementwise_spec (fun x y => x - y) a b ha hb hrows hcolumns
    exact ⟨R, h1, h2, h3, h4, h5⟩

/-- Witness of `elementwise_equal_dimensions`: the 2 by 3 matrix `sampleLeft`
combined with itself. -/
theorem elementwise_equal_dimensions_witness :
    sampleLeft.WellFormed ∧
    ((∃ R, sampleLeft.mul sampleLeft = Except.ok R ∧ R.WellFormed ∧
        IsElementwise (fun x y => x * y) sampleLeft sampleLeft R) ∧
     (∃ R, sampleLeft.add sampleLeft = Except.ok R ∧ R.WellFormed ∧
        IsElementwise (fun x y => x + y) sampleLeft sampleLeft R) ∧
     (∃ R, sampleLeft.sub sampleLeft = Except.ok R ∧ R.WellFormed ∧
        IsElementwise (fun x y => x - y) sampleLeft sampleLeft R)) :=
  ⟨by decide,
    elementwise_equal_dimensions sampleLeft sampleLeft (by decide) (by decide) rfl rfl⟩

/-- Claim C6.  For a well-formed matrix `m` and indices `row`, `column`, the
mutable `at` (read through, or assigned through) and the immutable `at` end
with `std::out_of_range` (IndexOutOfRange) if and only if `row >= rows` or
`column >= columns`; otherwise both return the element stored at
`elements[row][column]`, which exists, so that the access is inside the
buffer. -/
theorem at_bounds_checked (m : Matrix α) (hm : m.WellFormed) (row column : Nat) :
    (m.atMut row column = Except.error Fault.outOfRange ↔
      (row ≥ m.rows ∨ column ≥ m.columns)) ∧
    (m.atConst row column = Except.error Fault.outOfRange ↔
      (row ≥ m.rows ∨ column ≥ m.columns)) ∧
    (∀ v, m.atAssign row column v = Except.error Fault.outOfRange ↔
      (row ≥ m.rows ∨ column ≥ m.columns)) ∧
    (¬ (row ≥ m.rows ∨ column ≥ m.columns) →
      ∃ e r v, m.elements = some e ∧ e[row]? = some r ∧ r[column]? = some v ∧
        m.atMut row column = Except.ok v ∧ m.atConst row column = Except.ok v) := by
  refine ⟨⟨?_, ?_⟩, ⟨?_, ?_⟩, ?_, fun h => at_in_bounds hm h⟩
  · intro h
    by_contra hin
    obtain ⟨_, _, _, _, _, _, hmut, _⟩ := at_in_bounds hm hin
    rw [hmut] at h
    simp at h
  · intro h
    simp only [Matrix.atMut, if_pos h]
  · intro h
    by_contra hin
    obtain ⟨_, _, _, _, _, _, _, hconst⟩ := at_in_bounds hm hin
    rw [hconst] at h
    simp at h
  · intro h
    simp only [Matrix.atConst, if_pos h]
  · intro v
    constructor
    · intro h
      by_contra hin
      simp only [Matrix.atAssign, if_neg hin] at h
      have := store_fault _ _ _ _ _ h
      simp at this
    · intro h
      simp only [Matrix.atAssign, if_pos h]

/-- Witness of `at_bounds_checked`: the 2 by 3 matrix `sampleLeft` at the
position `(1, 2)`. -/
theorem at_bounds_checked_witness :
    sampleLeft.WellFormed ∧
    (sampleLeft.atMut 1 2 = Except.error Fault.outOfRange ↔
      (1 ≥ sampleLeft.rows ∨ 2 ≥ sampleLeft.columns)) ∧
    (sampleLeft.atConst 1 2 = Except.error Fault.outOfRange ↔
      (1 ≥ sampleLeft.rows ∨ 2 ≥ sampleLeft.columns)) ∧
    (∀ v, sampleLeft.atAssign 1 2 v = Except.error Fault.outOfRange ↔
      (1 ≥ sampleLeft.rows ∨ 2 ≥ sampleLeft.columns)) ∧
    (¬ (1 ≥ sampleLeft.rows ∨ 2 ≥ sampleLeft.columns) →
      ∃ e r v, sampleLeft.elements = some e ∧ e[1]? = some r ∧ r[2]? = some v ∧
        sampleLeft.atMut 1 2 = Except.ok v ∧ sampleLeft.atConst 1 2 = Except.ok v) :=
  ⟨by decide, at_bounds_checked sampleLeft (by decide) 1 2⟩

/-- Claim C7, at a matrix with no rows.  `Matrix(0, 1)` builds the
well-formed matrix `sampleNoRows`, with no rows and one column; its
`transpose()` allocates one row of zero elements and ends with
`std::bad_array_new_length` instead of returning a 1 by 0 matrix. -/
theorem transpose_no_rows_throws :
    Matrix.sized 0 1 = Except.ok sampleNoRows ∧ sampleNoRows.WellFormed ∧
    sampleNoRows.transpose = Except.error Fault.badArrayNewLength := by
  decide

/-- Claim C8, at a matrix with no rows.  For the matrix `a` built by
`Matrix(0, 2)`, `a.transpose().transpose()` yields no matrix: the first
`transpose()` ends with `std::bad_array_new_length`. -/
theorem transpose_twice_no_rows_throws :
    (Matrix.sized 0 2 : Except Fault (Matrix Int)) =
      Except.ok { rows := 0, columns := 2, elements := some [] } ∧
    ({ rows := 0, columns := 2, elements := some [] } : Matrix Int).WellFormed ∧
    (match ({ rows := 0, columns := 2, elements := some [] } : Matrix Int).transpose with
      | Except.error f => Except.error f
      | Except.ok t => t.transpose) = Except.error Fault.badArrayNewLength := by
  decide

/-- Claim C9, at a literal of empty rows.  The literal `{{}, {}}` is not empty
and its rows all have the length of the first, zero; the literal-list
constructor ends with `std::bad_array_new_length`, thrown while it allocates
the first row, instead of returning a 2 by 0 matrix. -/
theorem literal_of_empty_rows_throws :
    (Matrix.ofLiteral [[], []] : Except Fault (Matrix Int)) =
      Except.error Fault.badArrayNewLength := by
  decide

/-- Claim C10, at a literal whose first row is empty.  In the literal
`{{}, {1}}` the second row differs in length from the first, and the
literal-list constructor ends with `std::bad_array_new_length`, thrown by the
allocation that precedes the comparison of the row lengths, not with
`std::invalid_argument`. -/
theorem literal_empty_first_row_not_invalid_argument :
    ([1] : List Int).length ≠ ([] : List Int).length ∧
    (Matrix.ofLiteral [[], [1]] : Except Fault (Matrix Int)) =
      Except.error Fault.badArrayNewLength ∧
    (Matrix.ofLiteral [[], [1]] : Except Fault (Matrix Int)) ≠
      Except.error Fault.invalidArgument := by
  decide

end Claims

section LaterClaims
variable {α : Type}

/-- Claim C11, at a row count above zero with no columns.  `Matrix(2, 0)`
allocates a first row of zero elements and ends with
`std::bad_array_new_length` instead of yielding a 2 by 0 matrix; the concrete
instance `Matrix(2, 3)` yields 2 rows of 3 zeros. -/
theorem sized_two_by_zero_throws :
    (Matrix.sized 2 0 : Except Fault (Matrix Int)) =
      Except.error Fault.badArrayNewLength ∧
    (Matrix.sized 2 3 : Except Fault (Matrix Int)) =
      Except.ok { rows := 2, columns := 3, elements := some [[0, 0, 0], [0, 0, 0]] } := by
  decide

/-- Claim C12.  For a well-formed matrix `a` and a scalar `s`, each of `a * s`,
`a + s` and `a - s` returns a well-formed matrix with the row and column counts
of `a` whose element `(i, j)` is the product, sum and difference of the element
`(i, j)` of `a` and `s`, for all `i < rows` and `j < columns`. -/
theorem scalar_operators_elementwise [Zero α] [Mul α] [Add α] [Sub α]
    (a : Matrix α) (s : α) (ha : a.WellFormed) :
    (∃ R, a.mulScalar s = Except.ok R ∧ R.WellFormed ∧ IsScalarwise (fun x => x * s) a R) ∧
    (∃ R, a.addScalar s = Except.ok R ∧ R.WellFormed ∧ IsScalarwise (fun x => x + s) a R) ∧
    (∃ R, a.subScalar s = Except.ok R ∧ R.WellFormed ∧ IsScalarwise (fun x => x - s) a R) :=
  ⟨scalarwise_spec _ a ha, scalarwise_spec _ a ha, scalarwise_spec _ a ha⟩

/-- Witness of `scalar_operators_elementwise`: the 2 by 3 matrix `sampleLeft`
and the scalar 5; with them the concrete instances `A + 5` and `A * 2`. -/
theorem scalar_operators_elementwise_witness :
    sampleLeft.WellFormed ∧
    ((∃ R, sampleLeft.mulScalar 5 = Except.ok R ∧ R.WellFormed ∧
        IsScalarwise (fun x => x * 5) sampleLeft R) ∧
     (∃ R, sampleLeft.addScalar 5 = Except.ok R ∧ R.WellFormed ∧
        IsScalarwise (fun x => x + 5) sampleLeft R) ∧
     (∃ R, sampleLeft.subScalar 5 = Except.ok R ∧ R.WellFormed ∧
        IsScalarwise (fun x => x - 5) sampleLeft R)) ∧
    sampleLeft.addScalar 5 =
      Except.ok { rows := 2, columns := 3, elements := some [[6, 7, 8], [9, 10, 11]] } ∧
    sampleLeft.mulScalar 2 =
      Except.ok { rows := 2, columns := 3, elements := some [[2, 4, 6], [8, 10, 12]] } :=
  ⟨by decide, scalar_operators_elementwise sampleLeft 5 (by decide), by decide, by decide⟩

/-- Claim C13.  Move-construction from `a` yields an object with the row
count, the column count and the buffer of `a`, and leaves `a` with no rows, no
columns and a null pointer.  Move-assignment from `a` to a distinct valid
object `b`, which owns another buffer or none, does the same to `b` and `a`;
the buffer is the one `a` had, with its contents. -/
theorem move_transfers_buffer (a b : Object) (h : Heap α) (hb : b.Valid h)
    (hd : b.elements = none ∨ b.elements ≠ a.elements) :
    ((Object.moveConstruct a).1.rows = a.rows ∧
      (Object.moveConstruct a).1.columns = a.columns ∧
      (Object.moveConstruct a).1.elements = a.elements ∧
      (Object.moveConstruct a).1.view h = a.view h ∧
      (Object.moveConstruct a).2 = { rows := 0, columns := 0, elements := none }) ∧
    ∃ h' b' a', b.moveAssign a h = (h', (b', a'), none) ∧
      b'.rows = a.rows ∧ b'.columns = a.columns ∧ b'.elements = a.elements ∧
      b'.view h' = a.view h ∧ a' = { rows := 0, columns := 0, elements := none } := by
  refine ⟨⟨rfl, rfl, rfl, rfl, rfl⟩, ?_⟩
  obtain ⟨h', hrun, hview, _, _, _⟩ := moveAssign_spec a b h hb hd
  exact ⟨h', a, _, hrun, rfl, rfl, rfl, hview, rfl⟩

/-- Witness of `move_transfers_buffer`: in `sampleHeap`, the 1 by 1 object
`sampleTarget` is move-assigned from the 2 by 3 object `sampleSource`. -/
theorem move_transfers_buffer_witness :
    sampleTarget.Valid sampleHeap ∧
    (∃ h' b' a', sampleTarget.moveAssign sampleSource sampleHeap = (h', (b', a'), none) ∧
      b'.rows = sampleSource.rows ∧ b'.columns = sampleSource.columns ∧
      b'.elements = sampleSource.elements ∧
      b'.view h' = sampleSource.view sampleHeap ∧
      a' = { rows := 0, columns := 0, elements := none }) ∧
    sampleTarget.moveAssign sampleSource sampleHeap =
      ([some [[1, 2, 3], [4, 5, 6]], none],
        ({ rows := 2, columns := 3, elements := some 0 },
         { rows := 0, columns := 0, elements := none }), none) :=
  ⟨by decide,
    (move_transfers_buffer sampleSource sampleTarget sampleHeap (by decide) (by decide)).2,
    by decide⟩

/-- Claim C14.  From a valid object `a`, the copy constructor, and
copy-assignment to a distinct valid object `b` that owns another buffer or
none, make an object with the dimensions and the elements of `a`, in a new
buffer: `a` is left the matrix it was, and an assignment through
`copy.at(r, c)` with `r < rows` and `c < columns` changes that element of the
copy, no other element of the copy and no element of `a`.  Copy-assignment of
`a` to itself changes nothing. -/
theorem copy_is_independent [Zero α] (a b : Object) (h : Heap α) (ha : a.Valid h)
    (hb : b.Valid h) (hd : b.elements = none ∨ b.elements ≠ a.elements) :
    (∃ h' c, Object.copyConstruct a h = (h', c, none) ∧ IsIndependentCopy a h c h') ∧
    (∃ h' c, Object.copyAssign false b a h = (h', c, none) ∧ IsIndependentCopy a h c h') ∧
    Object.copyAssign true a a h = (h, a, none) :=
  ⟨copyFrom_independent a h ha, copyAssign_independent a b h ha hb hd, rfl⟩

/-- Witness of `copy_is_independent`: in `sampleHeap`, copies of the 2 by 3
object `sampleSource`; with it the concrete instance: after
`copy.at(0, 0) = 99` the buffer of the original still holds 1 at `(0, 0)`. -/
theorem copy_is_independent_witness :
    sampleSource.Valid sampleHeap ∧ sampleTarget.Valid sampleHeap ∧
    (∃ h' c, Object.copyConstruct sampleSource sampleHeap = (h', c, none) ∧
      IsIndependentCopy sampleSource sampleHeap c h') ∧
    Object.copyConstruct sampleSource sampleHeap =
      ([some [[1, 2, 3], [4, 5, 6]], some [[7]], some [[1, 2, 3], [4, 5, 6]]],
        { rows := 2, columns := 3, elements := some 2 }, none) ∧
    Object.atAssign { rows := 2, columns := 3, elements := some 2 } 0 0 99
        [some [[1, 2, 3], [4, 5, 6]], some [[7]], some [[1, 2, 3], [4, 5, 6]]] =
      ([some [[1, 2, 3], [4, 5, 6]], some [[7]], some [[99, 2, 3], [4, 5, 6]]], none) :=
  ⟨by decide, by decide,
    (copy_is_independent sampleSource sampleTarget sampleHeap (by decide) (by decide)
      (by decide)).1,
    by decide, by decide⟩

/-- Claim C15.  Every matrix that a constructor or an operation of the class
yields is well-formed: the default, sized and literal-list constructors; the
copy and move constructors on a valid object `a`; the matrix and scalar
operators `*`, `+`, `-`, `dot` and `transpose`, on any operands; copy- and
move-assignment from `a` to a distinct valid object `b`, and copy-assignment of
`a` to itself.  For an object, being valid is having a well-formed matrix in a
live buffer. -/
theorem operations_keep_well_formed [Zero α] [Mul α] [Add α] [Sub α]
    (a b : Object) (h : Heap α) (ha : a.Valid h) (hb : b.Valid h)
    (hd : b.elements = none ∨ b.elements ≠ a.elements) :
    (Matrix.empty : Matrix α).WellFormed ∧
    (∀ r c (R : Matrix α), Matrix.sized r c = Except.ok R → R.WellFormed) ∧
    (∀ list (R : Matrix α), Matrix.ofLiteral list = Except.ok R → R.WellFormed) ∧
    (∃ h' c, Object.copyConstruct a h = (h', c, none) ∧ c.Valid h') ∧
    ((Object.moveConstruct a).1.Valid h ∧ (Object.moveConstruct a).2.Valid h) ∧
    (∀ x y R : Matrix α, (x.mul y = Except.ok R → R.WellFormed) ∧
      (x.add y = Except.ok R → R.WellFormed) ∧ (x.sub y = Except.ok R → R.WellFormed)) ∧
    (∀ (x R : Matrix α) (s : α), (x.mulScalar s = Except.ok R → R.WellFormed) ∧
      (x.addScalar s = Except.ok R → R.WellFormed) ∧
      (x.subScalar s = Except.ok R → R.WellFormed)) ∧
    (∀ x y R : Matrix α, x.dot y = Except.ok R → R.WellFormed) ∧
    (∀ x R : Matrix α, x.transpose = Except.ok R → R.WellFormed) ∧
    (∃ h' c, Object.copyAssign false b a h = (h', c, none) ∧ c.Valid h') ∧
    (∃ c, Object.copyAssign true a a h = (h, c, none) ∧ c.Valid h) ∧
    (∃ h' b' a', b.moveAssign a h = (h', (b', a'), none) ∧ b'.Valid h' ∧ a'.Valid h') := by
  refine ⟨?_, ?_, ?_, ?_, ?_, ?_, ?_, ?_, ?_, ?_, ?_, ?_⟩
  · exact ⟨rfl, rfl⟩
  · intro r c R hR
    exact (sized_ok_result r c R hR).1
  · intro list R hR
    exact (ofLiteral_ok_result list R hR).1
  · obtain ⟨h', c, hrun, hc⟩ := copyFrom_independent a h ha
    exact ⟨h', c, hrun, hc.2.2.2.2.1⟩
  · exact ⟨ha, empty_object_valid h⟩
  · intro x y R
    exact ⟨fun hR => (elementwise_ok_result _ x y R hR).1,
      fun hR => (elementwise_ok_result _ x y R hR).1,
      fun hR => (elementwise_ok_result _ x y R hR).1⟩
  · intro x R s
    exact ⟨fun hR => (scalarwise_ok_result _ x R hR).1,
      fun hR => (scalarwise_ok_result _ x R hR).1,
      fun hR => (scalarwise_ok_result _ x R hR).1⟩
  · intro x y R hR
    exact (dot_ok_result x y R hR).1
  · intro x R hR
    exact (transpose_ok_result x R hR).1
  · obtain ⟨h', c, hrun, hc⟩ := copyAssign_independent a b h ha hb hd
    exact ⟨h', c, hrun, hc.2.2.2.2.1⟩
  · exact ⟨a, rfl, ha⟩
  · obtain ⟨h', hrun, _, _, hkeep, _⟩ := moveAssign_spec a b h hb hd
    refine ⟨h', a, _, hrun, ?_, empty_object_valid h'⟩
    refine (valid_after_free a h h' ha ?_).1
    intro q hq
    apply hkeep
    rcases hd with hnone | hne
    · rw [hnone]; simp
    · rw [hq] at hne; exact hne

/-- Witness of `operations_keep_well_formed`: in `sampleHeap`, the objects
`sampleSource` and `sampleTarget`; the matrix that `sampleLeft + sampleLeft`
returns is well-formed. -/
theorem operations_keep_well_formed_witness :
    sampleSource.Valid sampleHeap ∧ sampleTarget.Valid sampleHeap ∧
    (sampleTarget.elements = none ∨ sampleTarget.elements ≠ sampleSource.elements) ∧
    ({ rows := 2, columns := 3, elements := some [[2, 4, 6], [8, 10, 12]] } :
      Matrix Int).WellFormed :=
  ⟨by decide, by decide, by decide,
    ((operations_keep_well_formed sampleSource sampleTarget sampleHeap (by decide)
      (by decide) (by decide)).2.2.2.2.2.1 sampleLeft sampleLeft _).2.1 (by decide)⟩

end LaterClaims

section LastClaims
variable {α : Type}

/-- Claim C16 as stated fails: the matrix that `Matrix(0, 0)` yields has no
rows and no columns, and its buffer is allocated (an array of no row
pointers), not null. -/
theorem sized_zero_by_zero_has_buffer :
    (Matrix.sized 0 0 : Except Fault (Matrix Int)) =
      Except.ok { rows := 0, columns := 0, elements := some [] } ∧
    ¬ ((({ rows := 0, columns := 0, elements := some [] } : Matrix Int).rows = 0 ∧
        ({ rows := 0, columns := 0, elements := some [] } : Matrix Int).columns = 0) ↔
      ({ rows := 0, columns := 0, elements := some [] } : Matrix Int).elements = none) := by
  decide

/-- Claim C16, amended.  A valid object with a null pointer has no rows and no
columns; the default constructor and a move leave such an object.  The
converse fails: every matrix that an allocation builds has a buffer, whatever
its dimensions, so that `Matrix(0, c)` has one for every `c`, zero included,
and so have the results of the literal-list and copy constructors and of the
operators, `dot` and `transpose`. -/
theorem null_buffer_only_without_dimensions [Zero α] [Mul α] [Add α] [Sub α] :
    (∀ (o : Object) (h : Heap α), o.Valid h → o.elements = none →
      o.rows = 0 ∧ o.columns = 0) ∧
    ((Matrix.empty : Matrix α).rows = 0 ∧ (Matrix.empty : Matrix α).columns = 0 ∧
      (Matrix.empty : Matrix α).elements = none) ∧
    (∀ a : Object,
      (Object.moveConstruct a).2 = { rows := 0, columns := 0, elements := none }) ∧
    (∀ c, (Matrix.sized 0 c : Except Fault (Matrix α)) =
      Except.ok { rows := 0, columns := c, elements := some [] }) ∧
    (∀ r c (R : Matrix α), Matrix.sized r c = Except.ok R → R.elements ≠ none) ∧
    (∀ list (R : Matrix α), Matrix.ofLiteral list = Except.ok R → R.elements ≠ none) ∧
    (∀ (a : Object) (h : Heap α), a.Valid h →
      ∃ h' c, Object.copyConstruct a h = (h', c, none) ∧ c.elements ≠ none) ∧
    (∀ x y R : Matrix α, (x.mul y = Except.ok R → R.elements ≠ none) ∧
      (x.add y = Except.ok R → R.elements ≠ none) ∧
      (x.sub y = Except.ok R → R.elements ≠ none)) ∧
    (∀ (x R : Matrix α) (s : α), (x.mulScalar s = Except.ok R → R.elements ≠ none) ∧
      (x.addScalar s = Except.ok R → R.elements ≠ none) ∧
      (x.subScalar s = Except.ok R → R.elements ≠ none)) ∧
    (∀ x y R : Matrix α, x.dot y = Except.ok R → R.elements ≠ none) ∧
    (∀ x R : Matrix α, x.transpose = Except.ok R → R.elements ≠ none) := by
  refine ⟨?_, ⟨rfl, rfl, rfl⟩, fun _ => rfl, ?_, ?_, ?_, ?_, ?_, ?_, ?_, ?_⟩
  · intro o h ho hnull
    have hwf := ho.1
    simp only [Matrix.WellFormed, Object.view, hnull, deref] at hwf
    exact hwf
  · intro c
    exact allocate_ok 0 c (Or.inl rfl)
  · intro r c R hR
    exact (sized_ok_result r c R hR).2
  · intro list R hR
    exact (ofLiteral_ok_result list R hR).2
  · intro a h ha
    obtain ⟨h', hrun, _⟩ := copyFrom_spec a h ha
    exact ⟨h', _, hrun, by simp⟩
  · intro x y R
    exact ⟨fun hR => (elementwise_ok_result _ x y R hR).2,
      fun hR => (elementwise_ok_result _ x y R hR).2,
      fun hR => (elementwise_ok_result _ x y R hR).2⟩
  · intro x R s
    exact ⟨fun hR => (scalarwise_ok_result _ x R hR).2,
      fun hR => (scalarwise_ok_result _ x R hR).2,
      fun hR => (scalarwise_ok_result _ x R hR).2⟩
  · intro x y R hR
    exact (dot_ok_result x y R hR).2
  · intro x R hR
    exact (transpose_ok_result x R hR).2

/-- Claim C17, at the literal `{{1, 2}, {3}}`.  From an empty free store, the
literal-list constructor allocates a 2 by 2 buffer, copies the first row,
finds the second row too short and ends with `std::invalid_argument`; the
buffer is live in the free store it leaves, three allocations (the row-pointer
array and two rows) that no object owns.  On the object that the literal
`{{1, 2}, {3, 4}}` builds, the destructor releases all three. -/
theorem literal_mismatch_leaves_buffer_live :
    Object.ofLiteral [[1, 2], [3]] ([] : Heap Int) =
      ([some [[1, 2], [0, 0]]], { rows := 2, columns := 2, elements := some 0 },
        some Fault.invalidArgument) ∧
    liveAllocations ([] : Heap Int) = 0 ∧
    liveAllocations ([some [[1, 2], [0, 0]]] : Heap Int) = 3 ∧
    Object.ofLiteral [[1, 2], [3, 4]] ([] : Heap Int) =
      ([some [[1, 2], [3, 4]]], { rows := 2, columns := 2, elements := some 0 }, none) ∧
    Object.destroy { rows := 2, columns := 2, elements := some 0 }
        ([some [[1, 2], [3, 4]]] : Heap Int) =
      ([none], { rows := 0, columns := 0, elements := none }, none) ∧
    liveAllocations ([none] : Heap Int) = 0 :=
  ⟨by decide, by decide, by decide, by decide, by decide, by decide⟩

/-- Claim C18.  For all matrices `a` and `b`, each of `a * b`, `a + b` and
`a - b` ends with `std::invalid_argument` (DimensionMismatch) exactly when the
row count of `a` differs from the row count of `b` and the column count of `a`
differs from the row count of `b`; the column count of `b`, and its elements,
have no part in it: an operand `c` with the row count of `b` is rejected
exactly when `b` is. -/
theorem elementwise_guard_exact [Zero α] [Mul α] [Add α] [Sub α] (a b : Matrix α) :
    (a.mul b = Except.error Fault.invalidArgument ↔
      (a.rows ≠ b.rows ∧ a.columns ≠ b.rows)) ∧
    (a.add b = Except.error Fault.invalidArgument ↔
      (a.rows ≠ b.rows ∧ a.columns ≠ b.rows)) ∧
    (a.sub b = Except.error Fault.invalidArgument ↔
      (a.rows ≠ b.rows ∧ a.columns ≠ b.rows)) ∧
    ∀ c : Matrix α, c.rows = b.rows →
      ((a.mul c = Except.error Fault.invalidArgument ↔
          a.mul b = Except.error Fault.invalidArgument) ∧
        (a.add c = Except.error Fault.invalidArgument ↔
          a.add b = Except.error Fault.invalidArgument) ∧
        (a.sub c = Except.error Fault.invalidArgument ↔
          a.sub b = Except.error Fault.invalidArgument)) := by
  refine ⟨elementwise_invalid _ a b, elementwise_invalid _ a b, elementwise_invalid _ a b, ?_⟩
  intro c hc
  refine ⟨?_, ?_, ?_⟩
  · unfold Matrix.mul
    rw [elementwise_invalid, elementwise_invalid, hc]
  · unfold Matrix.add
    rw [elementwise_invalid, elementwise_invalid, hc]
  · unfold Matrix.sub
    rw [elementwise_invalid, elementwise_invalid, hc]

/-- Claim C19, at a 2 by 3 and a 3 by 2 operand.  `sampleLeft` and
`sampleRight` are well-formed and the guard of the operators lets them pass,
the column count of the one being the row count of the other; each of `*`,
`+`, `-` then reads `matrix.elements[0][2]`, past the end of a row of two
elements. -/
theorem elementwise_reads_outside_after_guard :
    sampleLeft.WellFormed ∧ sampleRight.WellFormed ∧
    ¬ (sampleLeft.rows ≠ sampleRight.rows ∧ sampleLeft.columns ≠ sampleRight.rows) ∧
    readElem sampleRight.elements 0 2 = Except.error Fault.undefinedBehaviour ∧
    sampleLeft.mul sampleRight = Except.error Fault.undefinedBehaviour ∧
    sampleLeft.add sampleRight = Except.error Fault.undefinedBehaviour ∧
    sampleLeft.sub sampleRight = Except.error Fault.undefinedBehaviour := by
  decide

/-- Claim C20, at a 2 by 3 and a 3 by 3 operand.  `sampleLeft` and
`sampleSquare` are well-formed; each of `*`, `+`, `-` accepts them in this
order, and returns a matrix, and rejects them in the other order with
`std::invalid_argument`. -/
theorem elementwise_acceptance_depends_on_order :
    sampleLeft.WellFormed ∧ sampleSquare.WellFormed ∧
    sampleLeft.mul sampleSquare ≠ Except.error Fault.invalidArgument ∧
    sampleSquare.mul sampleLeft = Except.error Fault.invalidArgument ∧
    sampleLeft.add sampleSquare ≠ Except.error Fault.invalidArgument ∧
    sampleSquare.add sampleLeft = Except.error Fault.invalidArgument ∧
    sampleLeft.sub sampleSquare ≠ Except.error Fault.invalidArgument ∧
    sampleSquare.sub sampleLeft = Except.error Fault.invalidArgument := by
  decide

end LastClaims

end Transformer
